import Mathlib

/-!
Verification of the entity-to-graph upsert logic of `src/utils/build_graph.py`
(`Neo4jGraphBuilder`): a shallow embedding of `build_graph_from_entities`,
`process_all_documents` and `main`, together with a small operational model of
the Neo4j MERGE / SET / MATCH statements the script issues.

Modelling conventions:
* A JSON object is an association list of keys to values; keys are unique
  (Python dicts).  Keys whose value is JSON `null` are treated as absent — the
  script filters `None` values out of client dicts before writing, and `null`
  never influences any key lookup used by the script.
* A field read with `.get(k, default)` is modelled by `Option.getD`.
* Python truthiness on optional strings (`if entities.get('adviser')`) is:
  present and non-empty.
* Graph nodes are keyed by (label, unique-key) exactly as the script's MERGE
  statements key them: Client/Adviser by `name`, the rest by `id`.  The script
  never overwrites a node's key property with a different value, so keying the
  model on a dedicated `key` field agrees with Neo4j's property-based MERGE.
* A Cypher statement that starts with `MATCH` is a no-op when the match fails
  (no rows); a statement that starts with `MERGE` creates missing nodes.
-/

namespace BuildGraph

/-- A JSON scalar value (string, number or boolean) as stored in node
properties.  JSON `null` is modelled as key absence, see module docstring. -/
inductive Val : Type where
  | s : String → Val
  | n : Int → Val
  | b : Bool → Val
deriving DecidableEq

/-- Properties of a JSON object / graph node: an association list with the
semantics of a Python dict (unique keys). -/
abbrev Props := List (String × Val)

/-- Dict lookup: first (and, for lists built by `setProp`, only) binding. -/
def lookupProp (ps : Props) (k : String) : Option Val :=
  (ps.find? (fun p => decide (p.1 = k))).map (·.2)

/-- Dict update `d[k] = v`: remove any existing binding of `k`, bind `k ↦ v`. -/
def setProp (ps : Props) (k : String) (v : Val) : Props :=
  ps.filter (fun p => decide (p.1 ≠ k)) ++ [(k, v)]

/-- Cypher `SET node += new` / Python `dict.update`: bindings of `new` overwrite
bindings of `old`, other bindings of `old` survive. -/
def mergeProps (old : Props) : Props → Props
  | [] => old
  | p :: t => mergeProps (setProp old p.1 p.2) t

/-- One entry of the record's `clients` list.  `name` is the `"name"` field
(absent or null ↦ `none`); `props` are the remaining non-null fields. -/
structure ClientRec : Type where
  name : Option String
  props : Props
deriving DecidableEq

/-- One entry of the `dependants` list (fields opaque to the graph logic). -/
structure DepRec : Type where
  props : Props
deriving DecidableEq

/-- One entry of `assets.properties`; the script reads no individual field. -/
structure PropertyRec : Type where
  props : Props
deriving DecidableEq

/-- One entry of `assets.pensions` or `assets.investments`: the script reads
`owner` via `.get('owner', primary_client_name)`. -/
structure OwnedRec : Type where
  owner : Option String
  props : Props
deriving DecidableEq

/-- The `assets` sub-object; missing lists default to `[]` via `.get`. -/
structure Assets : Type where
  properties : List PropertyRec
  pensions : List OwnedRec
  investments : List OwnedRec
deriving DecidableEq

/-- The `goals` sub-object.  `retirement` is the raw dict: `none` for
absent/null, `some ps` for a present object (`ps = []` for `{}`, which is
falsy in Python). -/
structure Goals : Type where
  retirement : Option Props
deriving DecidableEq

/-- A parsed (non-empty) extraction record, as consumed by
`build_graph_from_entities`.  Fields the graph logic never reads
(liabilities, protection, tax_info, recommendations, document_type,
education/other goals) are omitted: the script issues no statement from
them. -/
structure Record : Type where
  adviser : Option String
  clients : List ClientRec
  dependants : List DepRec
  assets : Assets
  goals : Goals
deriving DecidableEq

/-- Python truthiness of an optional string. -/
def truthyStr : Option String → Bool
  | none => false
  | some s => decide (s ≠ "")

/-- `clients[0].get('name', f"Unknown_{document_name}")` — the "primary
client" name used as default owner of dependants, assets and goals. -/
def primary_client_name (r : Record) (document_name : String) : String :=
  match r.clients with
  | [] => "Unknown_" ++ document_name
  | c :: _ => c.name.getD ("Unknown_" ++ document_name)

/-- The name a client entry is upserted under: its own name if present, else
the primary client name. -/
def resolvedName (c : ClientRec) (primary : String) : String :=
  c.name.getD primary

/-- The property dict written for a client entry: its non-null fields, plus
`source_document ↦ document_name`, plus `name ↦ resolvedName`. -/
def clientWriteProps (c : ClientRec) (primary document_name : String) : Props :=
  setProp (setProp c.props "source_document" (Val.s document_name))
    "name" (Val.s (resolvedName c primary))

/-- One `session.run(...)` call of `build_graph_from_entities`, with its Cypher
template identified by constructor and its parameters. -/
inductive Stmt : Type where
  | mergeAdviser (name : String)
  | upsertClient (name : String) (props : Props)
  | linkAdvises (clientName adviserName : String)
  | upsertDependant (parentName nodeId : String) (props : Props)
  | upsertProperty (clientName nodeId : String) (props : Props)
  | upsertPension (ownerName nodeId : String) (props : Props)
  | upsertInvestment (ownerName nodeId : String) (props : Props)
  | upsertGoal (clientName nodeId : String) (props : Props)
deriving DecidableEq

/-- Statements of the `if entities.get('adviser'): session.run("MERGE (a:Adviser ...)")` step. -/
def adviserStmts (r : Record) : List Stmt :=
  match r.adviser with
  | none => []
  | some a => if a = "" then [] else [Stmt.mergeAdviser a]

/-- Statements of the per-client loop: `MERGE (c:Client {name}) SET c += props`
followed, when an adviser is present, by the `MATCH ... MERGE (a)-[:ADVISES]->(c)`. -/
def clientStmts (r : Record) (document_name : String) : List Stmt :=
  let primary := primary_client_name r document_name
  (r.clients.map (fun c =>
    let nm := resolvedName c primary
    Stmt.upsertClient nm (clientWriteProps c primary document_name) ::
      (match r.adviser with
       | none => []
       | some a => if a = "" then [] else [Stmt.linkAdvises nm a]))).flatten

/-- Statements of the dependants loop: id `f"{primary_client_name}_dep_{idx}"`. -/
def depStmts (r : Record) (document_name : String) : List Stmt :=
  let primary := primary_client_name r document_name
  r.dependants.enum.map (fun p =>
    Stmt.upsertDependant primary (primary ++ "_dep_" ++ toString p.1) p.2.props)

/-- Statements of the properties loop: id `f"{primary_client_name}_prop_{idx}"`. -/
def propertyStmts (r : Record) (document_name : String) : List Stmt :=
  let primary := primary_client_name r document_name
  r.assets.properties.enum.map (fun p =>
    Stmt.upsertProperty primary (primary ++ "_prop_" ++ toString p.1) p.2.props)

/-- Statements of the pensions loop: owner `pen.get('owner', primary)`, id
`f"{owner}_pen_{idx}"`. -/
def pensionStmts (r : Record) (document_name : String) : List Stmt :=
  let primary := primary_client_name r document_name
  r.assets.pensions.enum.map (fun p =>
    let owner := p.2.owner.getD primary
    Stmt.upsertPension owner (owner ++ "_pen_" ++ toString p.1) p.2.props)

/-- Statements of the investments loop: owner `inv.get('owner', primary)`, id
`f"{owner}_inv_{idx}"`. -/
def investmentStmts (r : Record) (document_name : String) : List Stmt :=
  let primary := primary_client_name r document_name
  r.assets.investments.enum.map (fun p =>
    let owner := p.2.owner.getD primary
    Stmt.upsertInvestment owner (owner ++ "_inv_" ++ toString p.1) p.2.props)

/-- Statement of the retirement-goal step, issued when `goals.get('retirement')`
is truthy (present and a non-empty dict). -/
def goalStmts (r : Record) (document_name : String) : List Stmt :=
  match r.goals.retirement with
  | none => []
  | some ps =>
    if ps = [] then []
    else
      let primary := primary_client_name r document_name
      [Stmt.upsertGoal primary (primary ++ "_ret_goal") ps]

/-- The full sequence of `session.run` calls made by
`build_graph_from_entities(entities, document_name)`.  `none` stands for the
empty dict `{}` (falsy: `if not entities: return`).  The adviser merge happens
before the `if not clients: return` guard. -/
def build_graph_stmts (entities : Option Record) (document_name : String) : List Stmt :=
  match entities with
  | none => []
  | some r =>
    adviserStmts r ++
      (if r.clients.isEmpty then []
       else
         clientStmts r document_name ++ depStmts r document_name ++
           propertyStmts r document_name ++ pensionStmts r document_name ++
           investmentStmts r document_name ++ goalStmts r document_name)

/-- A graph node: label, MERGE key (Client/Adviser: `name`; others: `id`),
and its current properties. -/
structure Node : Type where
  label : String
  key : String
  props : Props
deriving DecidableEq

/-- A relationship, keyed (as Cypher MERGE keys it) by type and endpoints. -/
structure Rel : Type where
  rtype : String
  srcLabel : String
  srcKey : String
  dstLabel : String
  dstKey : String
deriving DecidableEq

/-- The property-graph store state. -/
structure Graph : Type where
  nodes : List Node
  rels : List Rel
deriving DecidableEq

def emptyGraph : Graph := ⟨[], []⟩

/-- MATCH test: does a node with this label and key exist. -/
def nodeExists (g : Graph) (l k : String) : Bool :=
  g.nodes.any (fun nd => decide (nd.label = l) && decide (nd.key = k))

/-- Cypher `MERGE (x:L {key: k})`: create the node with just its key property
if absent, else leave the graph unchanged. -/
def mergeNode (g : Graph) (l k : String) (init : Props) : Graph :=
  if nodeExists g l k then g
  else { g with nodes := g.nodes ++ [⟨l, k, init⟩] }

/-- Cypher `SET x += ps` on the node(s) matching (l, k). -/
def setPlusNode (g : Graph) (l k : String) (ps : Props) : Graph :=
  { g with
    nodes := g.nodes.map (fun nd =>
      if decide (nd.label = l) && decide (nd.key = k) then
        { nd with props := mergeProps nd.props ps }
      else nd) }

def relExists (g : Graph) (e : Rel) : Bool :=
  g.rels.any (fun x => decide (x = e))

/-- Cypher `MERGE (a)-[:T]->(b)` with both endpoints already bound. -/
def mergeRel (g : Graph) (e : Rel) : Graph :=
  if relExists g e then g else { g with rels := g.rels ++ [e] }

/-- Node properties of the node matching (l, k), if any. -/
def findNode (g : Graph) (l k : String) : Option Props :=
  (g.nodes.find? (fun nd => decide (nd.label = l) && decide (nd.key = k))).map (·.props)

/-- Semantics of one `session.run` call against the store.  Statements whose
Cypher begins with `MATCH` are no-ops when the match fails. -/
def applyStmt (g : Graph) : Stmt → Graph
  | Stmt.mergeAdviser a => mergeNode g "Adviser" a [("name", Val.s a)]
  | Stmt.upsertClient nm ps =>
      setPlusNode (mergeNode g "Client" nm [("name", Val.s nm)]) "Client" nm ps
  | Stmt.linkAdvises c a =>
      if nodeExists g "Client" c && nodeExists g "Adviser" a then
        mergeRel g ⟨"ADVISES", "Adviser", a, "Client", c⟩
      else g
  | Stmt.upsertDependant p nid ps =>
      if nodeExists g "Client" p then
        mergeRel
          (setPlusNode (mergeNode g "Dependant" nid [("id", Val.s nid)]) "Dependant" nid ps)
          ⟨"PARENT_OF", "Client", p, "Dependant", nid⟩
      else g
  | Stmt.upsertProperty c nid ps =>
      if nodeExists g "Client" c then
        mergeRel
          (setPlusNode (mergeNode g "Property" nid [("id", Val.s nid)]) "Property" nid ps)
          ⟨"OWNS", "Client", c, "Property", nid⟩
      else g
  | Stmt.upsertPension ow nid ps =>
      mergeRel
        (setPlusNode
          (mergeNode (mergeNode g "Client" ow [("name", Val.s ow)]) "Pension" nid
            [("id", Val.s nid)])
          "Pension" nid ps)
        ⟨"HAS_ACCOUNT", "Client", ow, "Pension", nid⟩
  | Stmt.upsertInvestment ow nid ps =>
      mergeRel
        (setPlusNode
          (mergeNode (mergeNode g "Client" ow [("name", Val.s ow)]) "Investment" nid
            [("id", Val.s nid)])
          "Investment" nid ps)
        ⟨"HAS_ACCOUNT", "Client", ow, "Investment", nid⟩
  | Stmt.upsertGoal c nid ps =>
      if nodeExists g "Client" c then
        mergeRel
          (setPlusNode
            (setPlusNode (mergeNode g "Goal" nid [("id", Val.s nid)]) "Goal" nid
              [("type", Val.s "Retirement")])
            "Goal" nid ps)
          ⟨"HAS_GOAL", "Client", c, "Goal", nid⟩
      else g

/-- `build_graph_from_entities`: run every issued statement against the store. -/
def build_graph_from_entities (g : Graph) (entities : Option Record)
    (document_name : String) : Graph :=
  (build_graph_stmts entities document_name).foldl applyStmt g

/-- Processing the same record `n` times, starting from the empty store. -/
def buildTimes (r : Record) (document_name : String) : Nat → Graph
  | 0 => emptyGraph
  | Nat.succ m => build_graph_from_entities (buildTimes r document_name m) (some r) document_name

/-- The keys of the nodes carrying a given label, in creation order. -/
def keysOfLabel (g : Graph) (l : String) : List String :=
  (g.nodes.filter (fun nd => decide (nd.label = l))).map (·.key)

/-! ### Batch orchestrator (`process_all_documents`) -/

/-- How one document's processing ends inside the per-document `try`. -/
inductive DocOutcome : Type where
  | success
  | emptyText
  | emptyRecord
  | exn
deriving DecidableEq

/-- One input document, described by what the external collaborators return
for it: the text `read_docx` produces (`""` on read error), the record
`extract_entities_with_groq` returns (`none` is the empty-dict failure
sentinel), and whether the graph write raises. -/
structure Doc : Type where
  text : String
  extract : Option Record
  buildFails : Bool
deriving DecidableEq

/-- The body of the per-document `try`: empty text fails first, then an empty
extraction record, then a raised graph-write error (caught by the handler);
otherwise the document succeeds. -/
def processDoc (d : Doc) : DocOutcome :=
  if d.text = "" then DocOutcome.emptyText
  else
    match d.extract with
    | none => DocOutcome.emptyRecord
    | some _ => if d.buildFails then DocOutcome.exn else DocOutcome.success

/-- One loop iteration's effect on the `(successful, failed)` counters. -/
def processStep (counts : Nat × Nat) (d : Doc) : Nat × Nat :=
  match processDoc d with
  | DocOutcome.success => (counts.1 + 1, counts.2)
  | _ => (counts.1, counts.2 + 1)

/-- `process_all_documents`, reduced to its observable aggregate: the final
`(successful, failed)` counters.  Totality of this function is the model-level
statement that no document's failure propagates out of the loop. -/
def process_all_documents (docs : List Doc) : Nat × Nat :=
  docs.foldl processStep (0, 0)

/-- Whether the fixed inter-document sleep runs after a document with the given
outcome: the empty-text branch `continue`s past the sleep; otherwise the sleep
runs unless the document is the last (`if i < len(docx_files)`). -/
def sleptAfter (oc : DocOutcome) (isLast : Bool) : Bool :=
  if oc = DocOutcome.emptyText then false else !isLast

/-- The orchestrator loop as a trace: for each document in order, its outcome
and whether the inter-document delay ran after it. -/
def process_trace (docs : List Doc) : List (DocOutcome × Bool) :=
  docs.enum.map (fun p =>
    (processDoc p.2, sleptAfter (processDoc p.2) (decide (p.1 + 1 = docs.length))))

/-- Documents of a batch that are counted successful. -/
def successCount (docs : List Doc) : Nat :=
  (docs.filter (fun d => decide (processDoc d = DocOutcome.success))).length

/-- Documents of a batch that are counted failed. -/
def failCount (docs : List Doc) : Nat :=
  (docs.filter (fun d => decide (processDoc d ≠ DocOutcome.success))).length

/-! ### Configuration and `main` -/

/-- The environment variables the script reads. -/
structure Config : Type where
  groqApiKey : Option String
  neo4jUri : Option String
  neo4jUser : Option String
  neo4jPassword : Option String
deriving DecidableEq

/-- `os.getenv('NEO4J_URI', 'bolt://localhost:7687')`. -/
def neo4jUriOf (c : Config) : String := c.neo4jUri.getD "bolt://localhost:7687"

/-- `os.getenv('NEO4J_USER', 'neo4j')`. -/
def neo4jUserOf (c : Config) : String := c.neo4jUser.getD "neo4j"

/-- How `main` ends: aborted before any processing (missing API key or missing
documents directory), or ran the batch to its final counters. -/
inductive MainResult : Type where
  | abortedNoKey
  | abortedNoDir
  | ran : Nat × Nat → MainResult
deriving DecidableEq

/-- `main()`: checks `GROQ_API_KEY`, locates the documents directory, then
constructs the builder (whose only constructor check is again `GROQ_API_KEY`,
already known truthy here; the Neo4j driver is constructed lazily, with no
credential validation) and runs the batch.  No other configuration value is
checked. -/
def mainEntry (cfg : Config) (docsDirExists : Bool) (docs : List Doc) : MainResult :=
  if !truthyStr cfg.groqApiKey then MainResult.abortedNoKey
  else if !docsDirExists then MainResult.abortedNoDir
  else MainResult.ran (process_all_documents docs)

/-- The names the per-client loop upserts Client nodes under. -/
def resolvedClientNames (r : Record) (document_name : String) : List String :=
  r.clients.map (fun c => resolvedName c (primary_client_name r document_name))

/-- The store invariant: per label, node keys are pairwise distinct (Neo4j
uniqueness per MERGE key, and the script's own uniqueness constraints). -/
def GoodGraph (g : Graph) : Prop := ∀ l, (keysOfLabel g l).Nodup

/-- Labels of nodes a statement can create or update. -/
def stmtTouches : Stmt → String → Bool
  | Stmt.mergeAdviser _, l => decide (l = "Adviser")
  | Stmt.upsertClient _ _, l => decide (l = "Client")
  | Stmt.linkAdvises _ _, _ => false
  | Stmt.upsertDependant _ _ _, l => decide (l = "Dependant")
  | Stmt.upsertProperty _ _ _, l => decide (l = "Property")
  | Stmt.upsertPension _ _ _, l => decide (l = "Client") || decide (l = "Pension")
  | Stmt.upsertInvestment _ _ _, l => decide (l = "Client") || decide (l = "Investment")
  | Stmt.upsertGoal _ _ _, l => decide (l = "Goal")

/-! ### Lemmas about property dictionaries -/

theorem lookupProp_setProp_self (ps : Props) (k : String) (v : Val) :
    lookupProp (setProp ps k v) k = some v := by
  unfold lookupProp setProp
  rw [List.find?_append]
  have h : (ps.filter (fun p => decide (p.1 ≠ k))).find? (fun p => decide (p.1 = k)) = none := by
    rw [List.find?_eq_none]
    intro p hp
    rcases List.mem_filter.mp hp with ⟨_, hne⟩
    simp only [decide_eq_true_eq] at hne ⊢
    exact hne
  simp [h, List.find?]

theorem find?_filter_ne (ps : Props) {k k' : String} (h : k' ≠ k) :
    (ps.filter (fun p => decide (p.1 ≠ k))).find? (fun p => decide (p.1 = k')) =
      ps.find? (fun p => decide (p.1 = k')) := by
  induction ps with
  | nil => rfl
  | cons p t ih =>
    rw [List.filter_cons]
    by_cases hpk : p.1 = k
    · have hp' : ¬p.1 = k' := by rw [hpk]; exact Ne.symm h
      rw [if_neg (by simp [hpk]), List.find?_cons_of_neg _ (by simp [hp']), ih]
    · by_cases hp : p.1 = k'
      · rw [if_pos (by simp [hpk]), List.find?_cons_of_pos _ (by simp [hp]),
          List.find?_cons_of_pos _ (by simp [hp])]
      · rw [if_pos (by simp [hpk]), List.find?_cons_of_neg _ (by simp [hp]),
          List.find?_cons_of_neg _ (by simp [hp]), ih]

theorem lookupProp_setProp_ne (ps : Props) {k k' : String} (v : Val) (h : k' ≠ k) :
    lookupProp (setProp ps k v) k' = lookupProp ps k' := by
  unfold lookupProp setProp
  rw [List.find?_append, find?_filter_ne ps h]
  have hsingle : ([(k, v)] : Props).find? (fun p => decide (p.1 = k')) = none := by
    rw [List.find?_eq_none]
    intro p hp
    rcases List.mem_singleton.mp hp with rfl
    simp [Ne.symm h]
  rw [hsingle]
  cases ps.find? (fun p => decide (p.1 = k')) <;> rfl

theorem mergeProps_append (old ps qs : Props) :
    mergeProps old (ps ++ qs) = mergeProps (mergeProps old ps) qs := by
  induction ps generalizing old with
  | nil => simp [mergeProps]
  | cons p t ih => simp [mergeProps, ih]

theorem mergeProps_setProp (old ps : Props) (k : String) (v : Val) :
    mergeProps old (setProp ps k v) =
      setProp (mergeProps old (ps.filter (fun p => decide (p.1 ≠ k)))) k v := by
  unfold setProp
  rw [mergeProps_append]
  rfl

theorem lookupProp_mergeProps_setProp_self (old ps : Props) (k : String) (v : Val) :
    lookupProp (mergeProps old (setProp ps k v)) k = some v := by
  rw [mergeProps_setProp]
  exact lookupProp_setProp_self _ _ _

theorem filter_setProp_ne (ps : Props) {k k' : String} (v : Val) (h : k ≠ k') :
    (setProp ps k v).filter (fun p => decide (p.1 ≠ k')) =
      setProp (ps.filter (fun p => decide (p.1 ≠ k'))) k v := by
  unfold setProp
  rw [List.filter_append, List.filter_filter, List.filter_filter]
  congr 1
  · apply List.filter_congr
    intro p _
    simp only [Bool.and_comm]
  · simp [h]

/-- The client write dict always carries `source_document ↦ document_name`,
and merging it into any old node props leaves that binding in place. -/
theorem lookupProp_mergeProps_clientWriteProps (old : Props) (c : ClientRec)
    (primary document_name : String) :
    lookupProp (mergeProps old (clientWriteProps c primary document_name))
      "source_document" = some (Val.s document_name) := by
  unfold clientWriteProps
  rw [mergeProps_setProp]
  rw [lookupProp_setProp_ne _ _ (by decide : ("source_document" : String) ≠ "name")]
  rw [filter_setProp_ne _ _ (by decide : ("source_document" : String) ≠ "name")]
  exact lookupProp_mergeProps_setProp_self _ _ _ _

/-! ### Lemmas about the graph store -/

theorem keysOfLabel_empty (l : String) : keysOfLabel emptyGraph l = [] := rfl

theorem nodeExists_iff_mem_keysOfLabel (g : Graph) (l k : String) :
    nodeExists g l k = true ↔ k ∈ keysOfLabel g l := by
  unfold nodeExists keysOfLabel
  rw [List.any_eq_true]
  constructor
  · rintro ⟨nd, hnd, hp⟩
    simp only [Bool.and_eq_true, decide_eq_true_eq] at hp
    exact List.mem_map.mpr ⟨nd, List.mem_filter.mpr ⟨hnd, by simp [hp.1]⟩, hp.2⟩
  · intro hk
    rcases List.mem_map.mp hk with ⟨nd, hnd, hkey⟩
    rcases List.mem_filter.mp hnd with ⟨hmem, hl⟩
    simp only [decide_eq_true_eq] at hl
    exact ⟨nd, hmem, by simp [hl, hkey]⟩

theorem keysOfLabel_congr_nodes {g g' : Graph} (h : g.nodes = g'.nodes) (l : String) :
    keysOfLabel g l = keysOfLabel g' l := by
  unfold keysOfLabel; rw [h]

theorem findNode_congr_nodes {g g' : Graph} (h : g.nodes = g'.nodes) (l k : String) :
    findNode g l k = findNode g' l k := by
  unfold findNode; rw [h]

theorem nodeExists_congr_nodes {g g' : Graph} (h : g.nodes = g'.nodes) (l k : String) :
    nodeExists g l k = nodeExists g' l k := by
  unfold nodeExists; rw [h]

theorem mergeRel_nodes (g : Graph) (e : Rel) : (mergeRel g e).nodes = g.nodes := by
  unfold mergeRel; split <;> rfl

theorem setPlusNode_nodes_map (g : Graph) (l k : String) (ps : Props) :
    (setPlusNode g l k ps).nodes = g.nodes.map (fun nd =>
      if decide (nd.label = l) && decide (nd.key = k) then
        { nd with props := mergeProps nd.props ps }
      else nd) := rfl

theorem keysOfLabel_setPlusNode (g : Graph) (l k l' : String) (ps : Props) :
    keysOfLabel (setPlusNode g l k ps) l' = keysOfLabel g l' := by
  unfold keysOfLabel setPlusNode
  induction g.nodes with
  | nil => rfl
  | cons nd t ih =>
    simp only [List.map_cons, List.filter_cons]
    by_cases hm : decide (nd.label = l) && decide (nd.key = k)
    · simp only [hm, if_true]
      by_cases hl : nd.label = l'
      · simpa [hl] using ih
      · simpa [hl] using ih
    · simp only [Bool.not_eq_true] at hm
      simp only [hm, Bool.false_eq_true, if_false]
      by_cases hl : nd.label = l'
      · simpa [hl] using ih
      · simpa [hl] using ih

theorem keysOfLabel_mergeRel (g : Graph) (e : Rel) (l : String) :
    keysOfLabel (mergeRel g e) l = keysOfLabel g l :=
  keysOfLabel_congr_nodes (mergeRel_nodes g e) l

theorem keysOfLabel_mergeNode_ne (g : Graph) {l l' : String} (k : String) (init : Props)
    (h : l' ≠ l) : keysOfLabel (mergeNode g l k init) l' = keysOfLabel g l' := by
  unfold mergeNode
  split
  · rfl
  · unfold keysOfLabel
    simp [List.filter_append, Ne.symm h]

theorem keysOfLabel_mergeNode_self (g : Graph) (l k : String) (init : Props) :
    keysOfLabel (mergeNode g l k init) l =
      if nodeExists g l k then keysOfLabel g l else keysOfLabel g l ++ [k] := by
  unfold mergeNode
  split
  · simp [*]
  · unfold keysOfLabel
    simp [List.filter_append, *]

theorem nodeExists_mergeNode_self (g : Graph) (l k : String) (init : Props) :
    nodeExists (mergeNode g l k init) l k = true := by
  rw [nodeExists_iff_mem_keysOfLabel, keysOfLabel_mergeNode_self]
  split
  · rw [← nodeExists_iff_mem_keysOfLabel]; assumption
  · exact List.mem_append_right _ (List.mem_singleton.mpr rfl)

example : lookupProp (mergeProps [("name", Val.s "A")]
    (clientWriteProps ⟨some "A", [("age", Val.n 3)]⟩ "A" "d2")) "source_document"
    = some (Val.s "d2") := by decide

theorem nodeExists_of_findNode_eq_some {g : Graph} {l k : String} {ps : Props}
    (h : findNode g l k = some ps) : nodeExists g l k = true := by
  unfold findNode at h
  rcases Option.map_eq_some'.mp h with ⟨nd, hfind, _⟩
  have hp := List.find?_some hfind
  exact List.any_eq_true.mpr ⟨nd, List.mem_of_find?_eq_some hfind, hp⟩

theorem findNode_isSome_of_nodeExists {g : Graph} {l k : String}
    (h : nodeExists g l k = true) : ∃ ps, findNode g l k = some ps := by
  rcases List.any_eq_true.mp h with ⟨nd, hmem, hp⟩
  unfold findNode
  cases hfind : g.nodes.find? (fun nd => decide (nd.label = l) && decide (nd.key = k)) with
  | none => exact absurd hp (by simpa using List.find?_eq_none.mp hfind nd hmem)
  | some nd' => exact ⟨nd'.props, rfl⟩

theorem findNode_mergeNode_self_fresh {g : Graph} {l k : String} (init : Props)
    (h : nodeExists g l k = false) :
    findNode (mergeNode g l k init) l k = some init := by
  unfold mergeNode
  rw [if_neg (by simp [h])]
  unfold findNode
  rw [List.find?_append]
  have hnone : g.nodes.find? (fun nd => decide (nd.label = l) && decide (nd.key = k)) = none := by
    rw [List.find?_eq_none]
    intro nd hmem hp
    have : nodeExists g l k = true := List.any_eq_true.mpr ⟨nd, hmem, hp⟩
    simp [this] at h
  rw [hnone]
  simp [List.find?]

theorem findNode_mergeNode_ne {g : Graph} {l k : String} (init : Props) {l' k' : String}
    (h : ¬(l' = l ∧ k' = k)) :
    findNode (mergeNode g l k init) l' k' = findNode g l' k' := by
  unfold mergeNode
  split
  · rfl
  · unfold findNode
    rw [List.find?_append]
    have hsingle : ([(⟨l, k, init⟩ : Node)]).find?
        (fun nd => decide (nd.label = l') && decide (nd.key = k')) = none := by
      rw [List.find?_eq_none]
      intro nd hmem
      rcases List.mem_singleton.mp hmem with rfl
      simp only [Bool.and_eq_true, decide_eq_true_eq, not_and]
      intro h1 h2
      exact h ⟨h1.symm, h2.symm⟩
    rw [hsingle]
    cases g.nodes.find? (fun nd => decide (nd.label = l') && decide (nd.key = k')) <;> rfl

theorem find?_nodes_setPlus (t : List Node) (l k : String) (ps : Props) :
    (t.map (fun nd => if decide (nd.label = l) && decide (nd.key = k) then
        { nd with props := mergeProps nd.props ps } else nd)).find?
      (fun nd => decide (nd.label = l) && decide (nd.key = k)) =
    (t.find? (fun nd => decide (nd.label = l) && decide (nd.key = k))).map
      (fun nd => { nd with props := mergeProps nd.props ps }) := by
  induction t with
  | nil => rfl
  | cons nd t ih =>
    by_cases hm : (decide (nd.label = l) && decide (nd.key = k)) = true
    · simp only [List.map_cons, if_pos hm, List.find?_cons]
      dsimp only
      rw [hm]
      rfl
    · simp only [List.map_cons, if_neg hm, List.find?_cons]
      rw [Bool.not_eq_true] at hm
      rw [hm]
      exact ih

theorem findNode_setPlusNode_self (g : Graph) (l k : String) (ps : Props) :
    findNode (setPlusNode g l k ps) l k =
      (findNode g l k).map (fun old => mergeProps old ps) := by
  unfold findNode setPlusNode
  dsimp only
  rw [find?_nodes_setPlus]
  cases g.nodes.find? (fun nd => decide (nd.label = l) && decide (nd.key = k)) <;> rfl

theorem find?_nodes_setPlus_ne (t : List Node) {l k l' k' : String} (ps : Props)
    (h : ¬(l' = l ∧ k' = k)) :
    (t.map (fun nd => if decide (nd.label = l) && decide (nd.key = k) then
        { nd with props := mergeProps nd.props ps } else nd)).find?
      (fun nd => decide (nd.label = l') && decide (nd.key = k')) =
    t.find? (fun nd => decide (nd.label = l') && decide (nd.key = k')) := by
  induction t with
  | nil => rfl
  | cons nd t ih =>
    by_cases hm : (decide (nd.label = l) && decide (nd.key = k)) = true
    · have hq : (decide (nd.label = l') && decide (nd.key = k')) = false := by
        simp only [Bool.and_eq_true, decide_eq_true_eq] at hm
        by_contra hq'
        rw [Bool.not_eq_false, Bool.and_eq_true, decide_eq_true_eq, decide_eq_true_eq] at hq'
        exact h ⟨hq'.1.symm.trans hm.1, hq'.2.symm.trans hm.2⟩
      simp only [List.map_cons, if_pos hm, List.find?_cons]
      dsimp only
      rw [hq]
      exact ih
    · simp only [List.map_cons, if_neg hm, List.find?_cons]
      cases hq : (decide (nd.label = l') && decide (nd.key = k')) with
      | true => rfl
      | false => exact ih

theorem findNode_setPlusNode_ne (g : Graph) {l k l' k' : String} (ps : Props)
    (h : ¬(l' = l ∧ k' = k)) :
    findNode (setPlusNode g l k ps) l' k' = findNode g l' k' := by
  unfold findNode setPlusNode
  dsimp only
  rw [find?_nodes_setPlus_ne _ _ h]

theorem findNode_mergeRel (g : Graph) (e : Rel) (l k : String) :
    findNode (mergeRel g e) l k = findNode g l k :=
  findNode_congr_nodes (mergeRel_nodes g e) l k

theorem setPlusNode_rels (g : Graph) (l k : String) (ps : Props) :
    (setPlusNode g l k ps).rels = g.rels := rfl

theorem mergeNode_rels (g : Graph) (l k : String) (init : Props) :
    (mergeNode g l k init).rels = g.rels := by
  unfold mergeNode; split <;> rfl

theorem mergeRel_rels_ext (g : Graph) (e : Rel) :
    ∃ ext, (mergeRel g e).rels = g.rels ++ ext := by
  unfold mergeRel
  split
  · exact ⟨[], (List.append_nil _).symm⟩
  · exact ⟨[e], rfl⟩

theorem relExists_mergeRel_self (g : Graph) (e : Rel) :
    relExists (mergeRel g e) e = true := by
  unfold mergeRel
  split
  · assumption
  · exact List.any_eq_true.mpr
      ⟨e, List.mem_append_right _ (List.mem_singleton.mpr rfl), by simp⟩

theorem exists_append_trans {α : Type} {a b c : List α}
    (h1 : ∃ e, b = a ++ e) (h2 : ∃ e, c = b ++ e) : ∃ e, c = a ++ e := by
  rcases h1 with ⟨e1, rfl⟩
  rcases h2 with ⟨e2, rfl⟩
  exact ⟨e1 ++ e2, List.append_assoc _ _ _⟩

theorem rels_applyStmt_ext (g : Graph) (s : Stmt) :
    ∃ ext, (applyStmt g s).rels = g.rels ++ ext := by
  have hid : ∀ (g' : Graph), ∃ ext, g'.rels = g'.rels ++ ext :=
    fun g' => ⟨[], (List.append_nil _).symm⟩
  cases s with
  | mergeAdviser a => exact ⟨[], by rw [applyStmt, mergeNode_rels, List.append_nil]⟩
  | upsertClient nm ps =>
      exact ⟨[], by rw [applyStmt, setPlusNode_rels, mergeNode_rels, List.append_nil]⟩
  | linkAdvises c a =>
      rw [applyStmt]
      split
      · exact mergeRel_rels_ext g _
      · exact hid g
  | upsertDependant p nid ps =>
      rw [applyStmt]
      split
      · rcases mergeRel_rels_ext
          (setPlusNode (mergeNode g "Dependant" nid [("id", Val.s nid)]) "Dependant" nid ps) _
          with ⟨ext, hext⟩
        exact ⟨ext, by rw [hext, setPlusNode_rels, mergeNode_rels]⟩
      · exact hid g
  | upsertProperty c nid ps =>
      rw [applyStmt]
      split
      · rcases mergeRel_rels_ext
          (setPlusNode (mergeNode g "Property" nid [("id", Val.s nid)]) "Property" nid ps) _
          with ⟨ext, hext⟩
        exact ⟨ext, by rw [hext, setPlusNode_rels, mergeNode_rels]⟩
      · exact hid g
  | upsertPension ow nid ps =>
      rw [applyStmt]
      rcases mergeRel_rels_ext
        (setPlusNode (mergeNode (mergeNode g "Client" ow [("name", Val.s ow)]) "Pension" nid
          [("id", Val.s nid)]) "Pension" nid ps) _ with ⟨ext, hext⟩
      exact ⟨ext, by rw [hext, setPlusNode_rels, mergeNode_rels, mergeNode_rels]⟩
  | upsertInvestment ow nid ps =>
      rw [applyStmt]
      rcases mergeRel_rels_ext
        (setPlusNode (mergeNode (mergeNode g "Client" ow [("name", Val.s ow)]) "Investment" nid
          [("id", Val.s nid)]) "Investment" nid ps) _ with ⟨ext, hext⟩
      exact ⟨ext, by rw [hext, setPlusNode_rels, mergeNode_rels, mergeNode_rels]⟩
  | upsertGoal c nid ps =>
      rw [applyStmt]
      split
      · rcases mergeRel_rels_ext
          (setPlusNode (setPlusNode (mergeNode g "Goal" nid [("id", Val.s nid)]) "Goal" nid
            [("type", Val.s "Retirement")]) "Goal" nid ps) _ with ⟨ext, hext⟩
        exact ⟨ext, by rw [hext, setPlusNode_rels, setPlusNode_rels, mergeNode_rels]⟩
      · exact hid g

theorem relExists_applyStmt_mono {g : Graph} {e : Rel} (s : Stmt)
    (h : relExists g e = true) : relExists (applyStmt g s) e = true := by
  rcases rels_applyStmt_ext g s with ⟨ext, hext⟩
  rcases List.any_eq_true.mp h with ⟨x, hmem, hx⟩
  exact List.any_eq_true.mpr ⟨x, by rw [hext]; exact List.mem_append_left _ hmem, hx⟩

theorem relExists_foldl_mono {e : Rel} (ss : List Stmt) {g : Graph}
    (h : relExists g e = true) : relExists (ss.foldl applyStmt g) e = true := by
  induction ss generalizing g with
  | nil => exact h
  | cons s t ih => exact ih (relExists_applyStmt_mono s h)

theorem keysOfLabel_mergeNode_ext (g : Graph) (l' k : String) (init : Props) (l : String) :
    ∃ ext, keysOfLabel (mergeNode g l' k init) l = keysOfLabel g l ++ ext := by
  by_cases h : l = l'
  · subst h
    rw [keysOfLabel_mergeNode_self]
    split
    · exact ⟨[], (List.append_nil _).symm⟩
    · exact ⟨[k], rfl⟩
  · rw [keysOfLabel_mergeNode_ne _ _ _ h]
    exact ⟨[], (List.append_nil _).symm⟩

theorem keysOfLabel_applyStmt_ext (g : Graph) (s : Stmt) (l : String) :
    ∃ ext, keysOfLabel (applyStmt g s) l = keysOfLabel g l ++ ext := by
  have hid : ∀ (g' : Graph), ∃ ext, keysOfLabel g' l = keysOfLabel g' l ++ ext :=
    fun g' => ⟨[], (List.append_nil _).symm⟩
  cases s with
  | mergeAdviser a => exact keysOfLabel_mergeNode_ext g _ _ _ l
  | upsertClient nm ps =>
      rw [applyStmt, keysOfLabel_setPlusNode]
      exact keysOfLabel_mergeNode_ext g _ _ _ l
  | linkAdvises c a =>
      rw [applyStmt]
      split
      · rw [keysOfLabel_mergeRel]; exact hid g
      · exact hid g
  | upsertDependant p nid ps =>
      rw [applyStmt]
      split
      · rw [keysOfLabel_mergeRel, keysOfLabel_setPlusNode]
        exact keysOfLabel_mergeNode_ext g _ _ _ l
      · exact hid g
  | upsertProperty c nid ps =>
      rw [applyStmt]
      split
      · rw [keysOfLabel_mergeRel, keysOfLabel_setPlusNode]
        exact keysOfLabel_mergeNode_ext g _ _ _ l
      · exact hid g
  | upsertPension ow nid ps =>
      rw [applyStmt, keysOfLabel_mergeRel, keysOfLabel_setPlusNode]
      exact exists_append_trans (keysOfLabel_mergeNode_ext g _ _ _ l)
        (keysOfLabel_mergeNode_ext _ _ _ _ l)
  | upsertInvestment ow nid ps =>
      rw [applyStmt, keysOfLabel_mergeRel, keysOfLabel_setPlusNode]
      exact exists_append_trans (keysOfLabel_mergeNode_ext g _ _ _ l)
        (keysOfLabel_mergeNode_ext _ _ _ _ l)
  | upsertGoal c nid ps =>
      rw [applyStmt]
      split
      · rw [keysOfLabel_mergeRel, keysOfLabel_setPlusNode, keysOfLabel_setPlusNode]
        exact keysOfLabel_mergeNode_ext g _ _ _ l
      · exact hid g

theorem keysOfLabel_foldl_ext (ss : List Stmt) (g : Graph) (l : String) :
    ∃ ext, keysOfLabel (ss.foldl applyStmt g) l = keysOfLabel g l ++ ext := by
  induction ss generalizing g with
  | nil => exact ⟨[], (List.append_nil _).symm⟩
  | cons s t ih =>
      exact exists_append_trans (keysOfLabel_applyStmt_ext g s l) (ih (applyStmt g s))

theorem nodeExists_applyStmt_mono {g : Graph} {l k : String} (s : Stmt)
    (h : nodeExists g l k = true) : nodeExists (applyStmt g s) l k = true := by
  rcases keysOfLabel_applyStmt_ext g s l with ⟨ext, hext⟩
  rw [nodeExists_iff_mem_keysOfLabel] at h ⊢
  rw [hext]
  exact List.mem_append_left _ h

theorem nodeExists_foldl_mono {l k : String} (ss : List Stmt) {g : Graph}
    (h : nodeExists g l k = true) : nodeExists (ss.foldl applyStmt g) l k = true := by
  induction ss generalizing g with
  | nil => exact h
  | cons s t ih => exact ih (nodeExists_applyStmt_mono s h)

theorem goodGraph_empty : GoodGraph emptyGraph := fun _ => List.nodup_nil

theorem goodGraph_mergeNode {g : Graph} (hg : GoodGraph g) (l k : String) (init : Props) :
    GoodGraph (mergeNode g l k init) := by
  intro l'
  by_cases h : l' = l
  · subst h
    rw [keysOfLabel_mergeNode_self]
    split
    · exact hg _
    · next hex =>
        have hk : k ∉ keysOfLabel g l' := fun hmem =>
          hex ((nodeExists_iff_mem_keysOfLabel g l' k).mpr hmem)
        rw [List.nodup_append_comm, List.singleton_append, List.nodup_cons]
        exact ⟨hk, hg _⟩
  · rw [keysOfLabel_mergeNode_ne _ _ _ h]
    exact hg _

theorem goodGraph_setPlusNode {g : Graph} (hg : GoodGraph g) (l k : String) (ps : Props) :
    GoodGraph (setPlusNode g l k ps) := by
  intro l'
  rw [keysOfLabel_setPlusNode]
  exact hg _

theorem goodGraph_mergeRel {g : Graph} (hg : GoodGraph g) (e : Rel) :
    GoodGraph (mergeRel g e) := by
  intro l'
  rw [keysOfLabel_mergeRel]
  exact hg _

theorem goodGraph_applyStmt {g : Graph} (hg : GoodGraph g) (s : Stmt) :
    GoodGraph (applyStmt g s) := by
  cases s with
  | mergeAdviser a => exact goodGraph_mergeNode hg _ _ _
  | upsertClient nm ps => exact goodGraph_setPlusNode (goodGraph_mergeNode hg _ _ _) _ _ _
  | linkAdvises c a =>
      rw [applyStmt]
      split
      · exact goodGraph_mergeRel hg _
      · exact hg
  | upsertDependant p nid ps =>
      rw [applyStmt]
      split
      · exact goodGraph_mergeRel (goodGraph_setPlusNode (goodGraph_mergeNode hg _ _ _) _ _ _) _
      · exact hg
  | upsertProperty c nid ps =>
      rw [applyStmt]
      split
      · exact goodGraph_mergeRel (goodGraph_setPlusNode (goodGraph_mergeNode hg _ _ _) _ _ _) _
      · exact hg
  | upsertPension ow nid ps =>
      exact goodGraph_mergeRel
        (goodGraph_setPlusNode (goodGraph_mergeNode (goodGraph_mergeNode hg _ _ _) _ _ _) _ _ _) _
  | upsertInvestment ow nid ps =>
      exact goodGraph_mergeRel
        (goodGraph_setPlusNode (goodGraph_mergeNode (goodGraph_mergeNode hg _ _ _) _ _ _) _ _ _) _
  | upsertGoal c nid ps =>
      rw [applyStmt]
      split
      · exact goodGraph_mergeRel
          (goodGraph_setPlusNode (goodGraph_setPlusNode (goodGraph_mergeNode hg _ _ _) _ _ _) _ _ _) _
      · exact hg

theorem goodGraph_foldl (ss : List Stmt) {g : Graph} (hg : GoodGraph g) :
    GoodGraph (ss.foldl applyStmt g) := by
  induction ss generalizing g with
  | nil => exact hg
  | cons s t ih => exact ih (goodGraph_applyStmt hg s)

theorem keysOfLabel_applyStmt_of_not_touches {s : Stmt} {l : String}
    (h : stmtTouches s l = false) (g : Graph) :
    keysOfLabel (applyStmt g s) l = keysOfLabel g l := by
  cases s with
  | mergeAdviser a =>
      rw [stmtTouches, decide_eq_false_iff_not] at h
      exact keysOfLabel_mergeNode_ne _ _ _ h
  | upsertClient nm ps =>
      rw [stmtTouches, decide_eq_false_iff_not] at h
      rw [applyStmt, keysOfLabel_setPlusNode]
      exact keysOfLabel_mergeNode_ne _ _ _ h
  | linkAdvises c a =>
      rw [applyStmt]
      split
      · rw [keysOfLabel_mergeRel]
      · rfl
  | upsertDependant p nid ps =>
      rw [stmtTouches, decide_eq_false_iff_not] at h
      rw [applyStmt]
      split
      · rw [keysOfLabel_mergeRel, keysOfLabel_setPlusNode]
        exact keysOfLabel_mergeNode_ne _ _ _ h
      · rfl
  | upsertProperty c nid ps =>
      rw [stmtTouches, decide_eq_false_iff_not] at h
      rw [applyStmt]
      split
      · rw [keysOfLabel_mergeRel, keysOfLabel_setPlusNode]
        exact keysOfLabel_mergeNode_ne _ _ _ h
      · rfl
  | upsertPension ow nid ps =>
      rw [stmtTouches, Bool.or_eq_false_iff, decide_eq_false_iff_not,
        decide_eq_false_iff_not] at h
      rw [applyStmt, keysOfLabel_mergeRel, keysOfLabel_setPlusNode,
        keysOfLabel_mergeNode_ne _ _ _ h.2, keysOfLabel_mergeNode_ne _ _ _ h.1]
  | upsertInvestment ow nid ps =>
      rw [stmtTouches, Bool.or_eq_false_iff, decide_eq_false_iff_not,
        decide_eq_false_iff_not] at h
      rw [applyStmt, keysOfLabel_mergeRel, keysOfLabel_setPlusNode,
        keysOfLabel_mergeNode_ne _ _ _ h.2, keysOfLabel_mergeNode_ne _ _ _ h.1]
  | upsertGoal c nid ps =>
      rw [stmtTouches, decide_eq_false_iff_not] at h
      rw [applyStmt]
      split
      · rw [keysOfLabel_mergeRel, keysOfLabel_setPlusNode, keysOfLabel_setPlusNode]
        exact keysOfLabel_mergeNode_ne _ _ _ h
      · rfl

theorem keysOfLabel_foldl_of_not_touches {l : String} {ss : List Stmt}
    (h : ∀ s ∈ ss, stmtTouches s l = false) (g : Graph) :
    keysOfLabel (ss.foldl applyStmt g) l = keysOfLabel g l := by
  induction ss generalizing g with
  | nil => rfl
  | cons s t ih =>
      rw [List.foldl_cons, ih (fun x hx => h x (List.mem_cons_of_mem _ hx)),
        keysOfLabel_applyStmt_of_not_touches (h s (List.mem_cons_self _ _)) g]

theorem mergeNode_of_exists {g : Graph} {l k : String} (init : Props)
    (h : nodeExists g l k = true) : mergeNode g l k init = g := by
  unfold mergeNode
  rw [if_pos h]

theorem nodeExists_eq_false_of_findNode_eq_none {g : Graph} {l k : String}
    (h : findNode g l k = none) : nodeExists g l k = false := by
  cases hex : nodeExists g l k
  · rfl
  · rcases findNode_isSome_of_nodeExists hex with ⟨ps, hps⟩
    rw [h] at hps
    cases hps

theorem clients_isEmpty_false_of_mem {r : Record} {c : ClientRec} (hc : c ∈ r.clients) :
    r.clients.isEmpty = false := by
  cases hr : r.clients with
  | nil => rw [hr] at hc; cases hc
  | cons a t => rfl

theorem upsertClient_mem_clientStmts {r : Record} {c : ClientRec}
    (hc : c ∈ r.clients) (document_name : String) :
    Stmt.upsertClient (resolvedName c (primary_client_name r document_name))
        (clientWriteProps c (primary_client_name r document_name) document_name)
      ∈ clientStmts r document_name := by
  unfold clientStmts
  apply List.mem_flatten.mpr
  refine ⟨_, List.mem_map_of_mem _ hc, ?_⟩
  exact List.mem_cons_self _ _

theorem upsertClient_mem_build_graph_stmts {r : Record} {c : ClientRec}
    (hc : c ∈ r.clients) (document_name : String) :
    Stmt.upsertClient (resolvedName c (primary_client_name r document_name))
        (clientWriteProps c (primary_client_name r document_name) document_name)
      ∈ build_graph_stmts (some r) document_name := by
  rw [build_graph_stmts, clients_isEmpty_false_of_mem hc]
  rw [if_neg (by simp)]
  exact List.mem_append.mpr (Or.inr (List.mem_append.mpr (Or.inl (List.mem_append.mpr
    (Or.inl (List.mem_append.mpr (Or.inl (List.mem_append.mpr (Or.inl (List.mem_append.mpr
      (Or.inl (upsertClient_mem_clientStmts hc document_name))))))))))))

theorem upsertPension_mem_build_graph_stmts {r : Record} {i : Nat} {pen : OwnedRec}
    (hp : (i, pen) ∈ r.assets.pensions.enum) {c : ClientRec} (hc : c ∈ r.clients)
    (document_name : String) :
    Stmt.upsertPension (pen.owner.getD (primary_client_name r document_name))
        (pen.owner.getD (primary_client_name r document_name) ++ "_pen_" ++ toString i)
        pen.props
      ∈ build_graph_stmts (some r) document_name := by
  rw [build_graph_stmts, clients_isEmpty_false_of_mem hc]
  rw [if_neg (by simp)]
  have hpen : Stmt.upsertPension (pen.owner.getD (primary_client_name r document_name))
      (pen.owner.getD (primary_client_name r document_name) ++ "_pen_" ++ toString i)
      pen.props ∈ pensionStmts r document_name := List.mem_map_of_mem _ hp
  exact List.mem_append.mpr (Or.inr (List.mem_append.mpr (Or.inl (List.mem_append.mpr
    (Or.inl (List.mem_append.mpr (Or.inr hpen)))))))

theorem upsertInvestment_mem_build_graph_stmts {r : Record} {i : Nat} {inv : OwnedRec}
    (hp : (i, inv) ∈ r.assets.investments.enum) {c : ClientRec} (hc : c ∈ r.clients)
    (document_name : String) :
    Stmt.upsertInvestment (inv.owner.getD (primary_client_name r document_name))
        (inv.owner.getD (primary_client_name r document_name) ++ "_inv_" ++ toString i)
        inv.props
      ∈ build_graph_stmts (some r) document_name := by
  rw [build_graph_stmts, clients_isEmpty_false_of_mem hc]
  rw [if_neg (by simp)]
  have hinv : Stmt.upsertInvestment (inv.owner.getD (primary_client_name r document_name))
      (inv.owner.getD (primary_client_name r document_name) ++ "_inv_" ++ toString i)
      inv.props ∈ investmentStmts r document_name := List.mem_map_of_mem _ hp
  exact List.mem_append.mpr (Or.inr (List.mem_append.mpr (Or.inl (List.mem_append.mpr
    (Or.inr hinv)))))

/-- Every statement `build_graph_from_entities` issues, classified by shape;
client upserts always come from a client entry of the record. -/
theorem mem_build_graph_stmts_shape {s : Stmt} {r : Record} {document_name : String}
    (h : s ∈ build_graph_stmts (some r) document_name) :
    (∃ a, s = Stmt.mergeAdviser a) ∨
    (∃ c, c ∈ r.clients ∧
      s = Stmt.upsertClient (resolvedName c (primary_client_name r document_name))
        (clientWriteProps c (primary_client_name r document_name) document_name)) ∨
    (∃ nm a, s = Stmt.linkAdvises nm a) ∨
    (∃ p nid ps, s = Stmt.upsertDependant p nid ps) ∨
    (∃ c nid ps, s = Stmt.upsertProperty c nid ps) ∨
    (∃ ow nid ps, s = Stmt.upsertPension ow nid ps) ∨
    (∃ ow nid ps, s = Stmt.upsertInvestment ow nid ps) ∨
    (∃ c nid ps, s = Stmt.upsertGoal c nid ps) := by
  rw [build_graph_stmts] at h
  rcases List.mem_append.mp h with h | h
  · left
    unfold adviserStmts at h
    split at h
    · cases h
    · split at h
      · cases h
      · rcases List.mem_singleton.mp h with rfl
        exact ⟨_, rfl⟩
  · split at h
    · cases h
    · rcases List.mem_append.mp h with h | h
      rcases List.mem_append.mp h with h | h
      rcases List.mem_append.mp h with h | h
      rcases List.mem_append.mp h with h | h
      rcases List.mem_append.mp h with h | h
      · -- clientStmts
        unfold clientStmts at h
        rcases List.mem_flatten.mp h with ⟨grp, hgrp, hs⟩
        rcases List.mem_map.mp hgrp with ⟨c, hc, rfl⟩
        rcases List.mem_cons.mp hs with rfl | hs
        · right; left
          exact ⟨c, hc, rfl⟩
        · right; right; left
          split at hs
          · cases hs
          · split at hs
            · cases hs
            · rcases List.mem_singleton.mp hs with rfl
              exact ⟨_, _, rfl⟩
      · -- depStmts
        right; right; right; left
        unfold depStmts at h
        rcases List.mem_map.mp h with ⟨x, _, rfl⟩
        exact ⟨_, _, _, rfl⟩
      · -- propertyStmts
        right; right; right; right; left
        unfold propertyStmts at h
        rcases List.mem_map.mp h with ⟨x, _, rfl⟩
        exact ⟨_, _, _, rfl⟩
      · -- pensionStmts
        right; right; right; right; right; left
        unfold pensionStmts at h
        rcases List.mem_map.mp h with ⟨x, _, rfl⟩
        exact ⟨_, _, _, rfl⟩
      · -- investmentStmts
        right; right; right; right; right; right; left
        unfold investmentStmts at h
        rcases List.mem_map.mp h with ⟨x, _, rfl⟩
        exact ⟨_, _, _, rfl⟩
      · -- goalStmts
        right; right; right; right; right; right; right
        unfold goalStmts at h
        split at h
        · cases h
        · split at h
          · cases h
          · rcases List.mem_singleton.mp h with rfl
            exact ⟨_, _, _, rfl⟩

/-! ### C1 — no-clients records -/

/-- C1, counterexample: a record whose clients list is empty but which names an
adviser makes the upsert engine perform one graph write (the Adviser MERGE,
which precedes the no-clients guard), changing the graph state — refuting
"zero graph writes regardless of any other fields (such as adviser)". -/
theorem c1_counterexample_adviser_written_without_clients :
    build_graph_stmts (some ⟨some "C D", [], [], ⟨[], [], []⟩, ⟨none⟩⟩) "doc" =
      [Stmt.mergeAdviser "C D"] ∧
    build_graph_from_entities emptyGraph
        (some ⟨some "C D", [], [], ⟨[], [], []⟩, ⟨none⟩⟩) "doc" ≠ emptyGraph := by
  constructor
  · rfl
  · decide

/-- C1, amended: for a record with missing or empty clients list, the only
statements issued are the adviser upsert (when a truthy adviser is present);
with no adviser the engine issues no statement and leaves any graph state
unchanged. -/
theorem c1_amended_no_clients_only_adviser_write (r : Record) (document_name : String)
    (g : Graph) (h : r.clients = []) :
    build_graph_stmts (some r) document_name = adviserStmts r ∧
      (adviserStmts r = [] → build_graph_from_entities g (some r) document_name = g) := by
  have hstmts : build_graph_stmts (some r) document_name = adviserStmts r := by
    rw [build_graph_stmts, h]
    simp
  refine ⟨hstmts, fun ha => ?_⟩
  rw [build_graph_from_entities, hstmts, ha]
  rfl

/-- Witness for the amended C1 at a concrete adviser-less, clients-less record. -/
theorem c1_amended_witness :
    build_graph_stmts (some ⟨none, [], [], ⟨[], [], []⟩, ⟨none⟩⟩) "d" =
      adviserStmts ⟨none, [], [], ⟨[], [], []⟩, ⟨none⟩⟩ ∧
    (adviserStmts (⟨none, [], [], ⟨[], [], []⟩, ⟨none⟩⟩ : Record) = [] →
      build_graph_from_entities emptyGraph (some ⟨none, [], [], ⟨[], [], []⟩, ⟨none⟩⟩) "d"
        = emptyGraph) :=
  c1_amended_no_clients_only_adviser_write ⟨none, [], [], ⟨[], [], []⟩, ⟨none⟩⟩ "d" emptyGraph rfl

/-! ### C5 — clients without a name -/

/-- C5, counterexample: in a record whose first client is "Alice" and whose
second client has no name, the nameless client is upserted under "Alice" —
both client writes target node "Alice" and the resulting graph's only Client
key is "Alice"; no document-derived placeholder ("Unknown_doc1") is used. -/
theorem c5_counterexample_nameless_client_gets_primary_name :
    build_graph_stmts
        (some ⟨none, [⟨some "Alice", []⟩, ⟨none, []⟩], [], ⟨[], [], []⟩, ⟨none⟩⟩) "doc1" =
      [Stmt.upsertClient "Alice" [("source_document", Val.s "doc1"), ("name", Val.s "Alice")],
       Stmt.upsertClient "Alice" [("source_document", Val.s "doc1"), ("name", Val.s "Alice")]] ∧
    keysOfLabel (build_graph_from_entities emptyGraph
        (some ⟨none, [⟨some "Alice", []⟩, ⟨none, []⟩], [], ⟨[], [], []⟩, ⟨none⟩⟩) "doc1")
      "Client" = ["Alice"] := by decide

/-- C5, amended: a client entry without a name is upserted under the primary
client's name (the first client's name), tagged with source_document; the
document-derived placeholder `Unknown_{document}` is that name only when the
first client itself has no name. -/
theorem c5_amended_nameless_client_upserted_under_primary (r : Record)
    (document_name : String) (c : ClientRec) (hc : c ∈ r.clients) (hname : c.name = none) :
    Stmt.upsertClient (primary_client_name r document_name)
        (clientWriteProps c (primary_client_name r document_name) document_name)
      ∈ build_graph_stmts (some r) document_name ∧
    lookupProp (clientWriteProps c (primary_client_name r document_name) document_name)
        "source_document" = some (Val.s document_name) ∧
    (∀ c0 cs, r.clients = c0 :: cs → c0.name = none →
      primary_client_name r document_name = "Unknown_" ++ document_name) := by
  refine ⟨?_, ?_, ?_⟩
  · have hmem := upsertClient_mem_build_graph_stmts hc document_name
    simpa only [resolvedName, hname, Option.getD_none] using hmem
  · rw [clientWriteProps,
      lookupProp_setProp_ne _ _ (by decide : ("source_document" : String) ≠ "name"),
      lookupProp_setProp_self]
  · intro c0 cs hr h0
    unfold primary_client_name
    rw [hr]
    dsimp only
    rw [h0]
    rfl

/-- Witness for the amended C5 at a concrete one-nameless-client record. -/
theorem c5_amended_witness :
    Stmt.upsertClient (primary_client_name ⟨none, [⟨none, []⟩], [], ⟨[], [], []⟩, ⟨none⟩⟩ "d")
        (clientWriteProps ⟨none, []⟩
          (primary_client_name ⟨none, [⟨none, []⟩], [], ⟨[], [], []⟩, ⟨none⟩⟩ "d") "d")
      ∈ build_graph_stmts (some ⟨none, [⟨none, []⟩], [], ⟨[], [], []⟩, ⟨none⟩⟩) "d" ∧
    lookupProp (clientWriteProps ⟨none, []⟩
        (primary_client_name ⟨none, [⟨none, []⟩], [], ⟨[], [], []⟩, ⟨none⟩⟩ "d") "d")
      "source_document" = some (Val.s "d") ∧
    (∀ c0 cs, (⟨none, [⟨none, []⟩], [], ⟨[], [], []⟩, ⟨none⟩⟩ : Record).clients = c0 :: cs →
      c0.name = none →
      primary_client_name ⟨none, [⟨none, []⟩], [], ⟨[], [], []⟩, ⟨none⟩⟩ "d" = "Unknown_" ++ "d") :=
  c5_amended_nameless_client_upserted_under_primary
    ⟨none, [⟨none, []⟩], [], ⟨[], [], []⟩, ⟨none⟩⟩ "d" ⟨none, []⟩ (by decide) rfl

/-! ### C2 — idempotence of repeated processing -/

theorem nodeExists_applyStmt_upsertClient (g : Graph) (nm : String) (ps : Props) :
    nodeExists (applyStmt g (Stmt.upsertClient nm ps)) "Client" nm = true := by
  rw [applyStmt, nodeExists_iff_mem_keysOfLabel, keysOfLabel_setPlusNode,
    ← nodeExists_iff_mem_keysOfLabel]
  exact nodeExists_mergeNode_self _ _ _ _

theorem nodeExists_foldl_of_upsertClient_mem {ss : List Stmt} {nm : String} {ps : Props}
    (hmem : Stmt.upsertClient nm ps ∈ ss) (g : Graph) :
    nodeExists (ss.foldl applyStmt g) "Client" nm = true := by
  rcases List.append_of_mem hmem with ⟨as, bs, rfl⟩
  rw [List.foldl_append, List.foldl_cons]
  exact nodeExists_foldl_mono bs (nodeExists_applyStmt_upsertClient _ nm ps)

theorem goodGraph_buildTimes (r : Record) (document_name : String) (n : Nat) :
    GoodGraph (buildTimes r document_name n) := by
  induction n with
  | zero => exact goodGraph_empty
  | succ m ih => exact goodGraph_foldl _ ih

/-- C2 (confirmed): for a record with at least one client, processing the
identical record n ≥ 1 times from an empty store leaves exactly one Client
node per name the per-client loop upserts (one per distinct resolved client
name of the record). -/
theorem c2_client_upsert_idempotent (r : Record) (document_name : String) (n : Nat)
    (hn : 1 ≤ n) (_hcl : r.clients ≠ []) (nm : String)
    (hnm : nm ∈ resolvedClientNames r document_name) :
    (keysOfLabel (buildTimes r document_name n) "Client").count nm = 1 := by
  rcases List.mem_map.mp hnm with ⟨c, hc, hcnm⟩
  obtain ⟨m, rfl⟩ : ∃ m, n = m + 1 := ⟨n - 1, (Nat.succ_pred_eq_of_pos hn).symm⟩
  have hmem := upsertClient_mem_build_graph_stmts hc document_name
  rw [hcnm] at hmem
  have hex : nodeExists (buildTimes r document_name (m + 1)) "Client" nm = true :=
    nodeExists_foldl_of_upsertClient_mem hmem _
  exact List.count_eq_one_of_mem (goodGraph_buildTimes r document_name (m + 1) "Client")
    ((nodeExists_iff_mem_keysOfLabel _ _ _).mp hex)

/-- Witness for C2 at a concrete one-client record, n = 1. -/
theorem c2_witness :
    (1 ≤ 1 ∧ (⟨none, [⟨some "A", []⟩], [], ⟨[], [], []⟩, ⟨none⟩⟩ : Record).clients ≠ [] ∧
      "A" ∈ resolvedClientNames ⟨none, [⟨some "A", []⟩], [], ⟨[], [], []⟩, ⟨none⟩⟩ "d") ∧
    (keysOfLabel (buildTimes ⟨none, [⟨some "A", []⟩], [], ⟨[], [], []⟩, ⟨none⟩⟩ "d" 1)
      "Client").count "A" = 1 :=
  ⟨⟨le_refl 1, by decide, by decide⟩,
    c2_client_upsert_idempotent ⟨none, [⟨some "A", []⟩], [], ⟨[], [], []⟩, ⟨none⟩⟩ "d" 1
      (le_refl 1) (by decide) "A" (by decide)⟩

/-! ### C3 — merge-on-name across sequential documents -/

/-- Statements issued while processing record `r2` as document `d2` preserve
"the Client node `nm` exists and its source_document is `d2`": the only
statements that touch Client-node properties are client upserts, and those
re-assert `source_document = d2`. -/
theorem sd_invariant_applyStmt {r2 : Record} {d2 nm : String} {s : Stmt}
    (hs : s ∈ build_graph_stmts (some r2) d2) {g : Graph}
    (h : ∃ ps, findNode g "Client" nm = some ps ∧
      lookupProp ps "source_document" = some (Val.s d2)) :
    ∃ ps, findNode (applyStmt g s) "Client" nm = some ps ∧
      lookupProp ps "source_document" = some (Val.s d2) := by
  rcases h with ⟨ps, hfind, hsd⟩
  rcases mem_build_graph_stmts_shape hs with
    ⟨a, rfl⟩ | ⟨c, hc, rfl⟩ | ⟨x, a, rfl⟩ | ⟨p, nid, qs, rfl⟩ | ⟨cx, nid, qs, rfl⟩ |
    ⟨ow, nid, qs, rfl⟩ | ⟨ow, nid, qs, rfl⟩ | ⟨cx, nid, qs, rfl⟩
  · refine ⟨ps, ?_, hsd⟩
    rw [applyStmt, findNode_mergeNode_ne _ (fun hx => absurd hx.1 (by decide))]
    exact hfind
  · by_cases hnm : resolvedName c (primary_client_name r2 d2) = nm
    · have hex : nodeExists g "Client" nm = true := nodeExists_of_findNode_eq_some hfind
      refine ⟨mergeProps ps (clientWriteProps c (primary_client_name r2 d2) d2), ?_,
        lookupProp_mergeProps_clientWriteProps ps c _ d2⟩
      rw [applyStmt, hnm, findNode_setPlusNode_self, mergeNode_of_exists _ hex, hfind]
      rfl
    · refine ⟨ps, ?_, hsd⟩
      rw [applyStmt, findNode_setPlusNode_ne _ _ (fun hx => hnm hx.2.symm),
        findNode_mergeNode_ne _ (fun hx => hnm hx.2.symm)]
      exact hfind
  · refine ⟨ps, ?_, hsd⟩
    rw [applyStmt]
    split
    · rw [findNode_mergeRel]; exact hfind
    · exact hfind
  · refine ⟨ps, ?_, hsd⟩
    rw [applyStmt]
    split
    · rw [findNode_mergeRel, findNode_setPlusNode_ne _ _ (fun hx => absurd hx.1 (by decide)),
        findNode_mergeNode_ne _ (fun hx => absurd hx.1 (by decide))]
      exact hfind
    · exact hfind
  · refine ⟨ps, ?_, hsd⟩
    rw [applyStmt]
    split
    · rw [findNode_mergeRel, findNode_setPlusNode_ne _ _ (fun hx => absurd hx.1 (by decide)),
        findNode_mergeNode_ne _ (fun hx => absurd hx.1 (by decide))]
      exact hfind
    · exact hfind
  · refine ⟨ps, ?_, hsd⟩
    rw [applyStmt, findNode_mergeRel,
      findNode_setPlusNode_ne _ _ (fun hx => absurd hx.1 (by decide)),
      findNode_mergeNode_ne _ (fun hx => absurd hx.1 (by decide))]
    by_cases how : ow = nm
    · subst how
      rw [mergeNode_of_exists _ (nodeExists_of_findNode_eq_some hfind)]
      exact hfind
    · rw [findNode_mergeNode_ne _ (fun hx => how hx.2.symm)]
      exact hfind
  · refine ⟨ps, ?_, hsd⟩
    rw [applyStmt, findNode_mergeRel,
      findNode_setPlusNode_ne _ _ (fun hx => absurd hx.1 (by decide)),
      findNode_mergeNode_ne _ (fun hx => absurd hx.1 (by decide))]
    by_cases how : ow = nm
    · subst how
      rw [mergeNode_of_exists _ (nodeExists_of_findNode_eq_some hfind)]
      exact hfind
    · rw [findNode_mergeNode_ne _ (fun hx => how hx.2.symm)]
      exact hfind
  · refine ⟨ps, ?_, hsd⟩
    rw [applyStmt]
    split
    · rw [findNode_mergeRel, findNode_setPlusNode_ne _ _ (fun hx => absurd hx.1 (by decide)),
        findNode_setPlusNode_ne _ _ (fun hx => absurd hx.1 (by decide)),
        findNode_mergeNode_ne _ (fun hx => absurd hx.1 (by decide))]
      exact hfind
    · exact hfind

theorem sd_invariant_foldl {r2 : Record} {d2 nm : String} {ss : List Stmt}
    (hss : ∀ s ∈ ss, s ∈ build_graph_stmts (some r2) d2) {g : Graph}
    (h : ∃ ps, findNode g "Client" nm = some ps ∧
      lookupProp ps "source_document" = some (Val.s d2)) :
    ∃ ps, findNode (ss.foldl applyStmt g) "Client" nm = some ps ∧
      lookupProp ps "source_document" = some (Val.s d2) := by
  induction ss generalizing g with
  | nil => exact h
  | cons s t ih =>
      exact ih (fun x hx => hss x (List.mem_cons_of_mem _ hx))
        (sd_invariant_applyStmt (hss s (List.mem_cons_self _ _)) h)

/-- A client upsert statement writes `source_document` onto the (created or
matched) Client node, whatever the node's previous properties. -/
theorem sd_established_applyStmt (g : Graph) (nm : String) (c : ClientRec)
    (primary d2 : String) :
    ∃ ps, findNode (applyStmt g (Stmt.upsertClient nm (clientWriteProps c primary d2)))
        "Client" nm = some ps ∧
      lookupProp ps "source_document" = some (Val.s d2) := by
  cases hex : nodeExists g "Client" nm with
  | true =>
      rcases findNode_isSome_of_nodeExists hex with ⟨ps0, hps0⟩
      refine ⟨mergeProps ps0 (clientWriteProps c primary d2), ?_,
        lookupProp_mergeProps_clientWriteProps ps0 c primary d2⟩
      rw [applyStmt, findNode_setPlusNode_self, mergeNode_of_exists _ hex, hps0]
      rfl
  | false =>
      refine ⟨mergeProps [("name", Val.s nm)] (clientWriteProps c primary d2), ?_,
        lookupProp_mergeProps_clientWriteProps _ c primary d2⟩
      rw [applyStmt, findNode_setPlusNode_self, findNode_mergeNode_self_fresh _ hex]
      rfl

/-- C3 (confirmed): when two records processed in sequence both contain a
client named `nm`, the first document's processing creates the Client node,
the corpus ends with exactly one Client node keyed `nm`, and that node's
properties carry the second document's source_document tag (property
overwrite on the same node identity). -/
theorem c3_same_name_clients_merge (r1 r2 : Record) (d1 d2 nm : String)
    (c1 : ClientRec) (hc1 : c1 ∈ r1.clients) (hn1 : c1.name = some nm)
    (c2 : ClientRec) (hc2 : c2 ∈ r2.clients) (hn2 : c2.name = some nm) :
    nodeExists (build_graph_from_entities emptyGraph (some r1) d1) "Client" nm = true ∧
    (keysOfLabel (build_graph_from_entities
        (build_graph_from_entities emptyGraph (some r1) d1) (some r2) d2)
      "Client").count nm = 1 ∧
    ∃ ps, findNode (build_graph_from_entities
          (build_graph_from_entities emptyGraph (some r1) d1) (some r2) d2)
        "Client" nm = some ps ∧
      lookupProp ps "source_document" = some (Val.s d2) := by
  have hrn1 : resolvedName c1 (primary_client_name r1 d1) = nm := by
    simp only [resolvedName, hn1, Option.getD_some]
  have hrn2 : resolvedName c2 (primary_client_name r2 d2) = nm := by
    simp only [resolvedName, hn2, Option.getD_some]
  have hmem1 := upsertClient_mem_build_graph_stmts hc1 d1
  rw [hrn1] at hmem1
  have hmem2 := upsertClient_mem_build_graph_stmts hc2 d2
  rw [hrn2] at hmem2
  have hex1 : nodeExists (build_graph_from_entities emptyGraph (some r1) d1)
      "Client" nm = true := nodeExists_foldl_of_upsertClient_mem hmem1 _
  rcases List.append_of_mem hmem2 with ⟨as, bs, hsplit⟩
  have hsd : ∃ ps, findNode (build_graph_from_entities
      (build_graph_from_entities emptyGraph (some r1) d1) (some r2) d2)
      "Client" nm = some ps ∧
      lookupProp ps "source_document" = some (Val.s d2) := by
    show ∃ ps, findNode ((build_graph_stmts (some r2) d2).foldl applyStmt
      (build_graph_from_entities emptyGraph (some r1) d1)) "Client" nm = some ps ∧
      lookupProp ps "source_document" = some (Val.s d2)
    rw [hsplit, List.foldl_append, List.foldl_cons]
    refine @sd_invariant_foldl r2 d2 nm bs ?_ _ (sd_established_applyStmt _ nm c2 _ d2)
    intro s hsx
    rw [hsplit]
    exact List.mem_append.mpr (Or.inr (List.mem_cons_of_mem _ hsx))
  refine ⟨hex1, ?_, hsd⟩
  rcases hsd with ⟨ps, hfind, _⟩
  have hgood : GoodGraph (build_graph_from_entities
      (build_graph_from_entities emptyGraph (some r1) d1) (some r2) d2) :=
    goodGraph_foldl _ (goodGraph_foldl _ goodGraph_empty)
  exact List.count_eq_one_of_mem (hgood "Client")
    ((nodeExists_iff_mem_keysOfLabel _ _ _).mp (nodeExists_of_findNode_eq_some hfind))

/-- Witness for C3 at two concrete records that both mention "Jane Doe". -/
theorem c3_witness :
    nodeExists (build_graph_from_entities emptyGraph
        (some ⟨none, [⟨some "Jane Doe", [("age", Val.n 30)]⟩], [], ⟨[], [], []⟩, ⟨none⟩⟩) "d1")
      "Client" "Jane Doe" = true ∧
    (keysOfLabel (build_graph_from_entities (build_graph_from_entities emptyGraph
        (some ⟨none, [⟨some "Jane Doe", [("age", Val.n 30)]⟩], [], ⟨[], [], []⟩, ⟨none⟩⟩) "d1")
        (some ⟨none, [⟨some "Jane Doe", [("age", Val.n 31)]⟩], [], ⟨[], [], []⟩, ⟨none⟩⟩) "d2")
      "Client").count "Jane Doe" = 1 ∧
    ∃ ps, findNode (build_graph_from_entities (build_graph_from_entities emptyGraph
        (some ⟨none, [⟨some "Jane Doe", [("age", Val.n 30)]⟩], [], ⟨[], [], []⟩, ⟨none⟩⟩) "d1")
        (some ⟨none, [⟨some "Jane Doe", [("age", Val.n 31)]⟩], [], ⟨[], [], []⟩, ⟨none⟩⟩) "d2")
      "Client" "Jane Doe" = some ps ∧
      lookupProp ps "source_document" = some (Val.s "d2") :=
  c3_same_name_clients_merge
    ⟨none, [⟨some "Jane Doe", [("age", Val.n 30)]⟩], [], ⟨[], [], []⟩, ⟨none⟩⟩
    ⟨none, [⟨some "Jane Doe", [("age", Val.n 31)]⟩], [], ⟨[], [], []⟩, ⟨none⟩⟩
    "d1" "d2" "Jane Doe"
    ⟨some "Jane Doe", [("age", Val.n 30)]⟩ (by decide) rfl
    ⟨some "Jane Doe", [("age", Val.n 31)]⟩ (by decide) rfl

/-! ### C9 — pension/investment owners are merged, not matched -/

theorem nodeExists_applyStmt_upsertPension (g : Graph) (ow nid : String) (qs : Props) :
    nodeExists (applyStmt g (Stmt.upsertPension ow nid qs)) "Client" ow = true := by
  rw [applyStmt, nodeExists_congr_nodes (mergeRel_nodes _ _), nodeExists_iff_mem_keysOfLabel,
    keysOfLabel_setPlusNode,
    keysOfLabel_mergeNode_ne _ _ _ (by decide : ("Client" : String) ≠ "Pension"),
    ← nodeExists_iff_mem_keysOfLabel]
  exact nodeExists_mergeNode_self _ _ _ _

theorem nodeExists_applyStmt_upsertInvestment (g : Graph) (ow nid : String) (qs : Props) :
    nodeExists (applyStmt g (Stmt.upsertInvestment ow nid qs)) "Client" ow = true := by
  rw [applyStmt, nodeExists_congr_nodes (mergeRel_nodes _ _), nodeExists_iff_mem_keysOfLabel,
    keysOfLabel_setPlusNode,
    keysOfLabel_mergeNode_ne _ _ _ (by decide : ("Client" : String) ≠ "Investment"),
    ← nodeExists_iff_mem_keysOfLabel]
  exact nodeExists_mergeNode_self _ _ _ _

theorem nodeExists_foldl_of_upsertPension_mem {ss : List Stmt} {ow nid : String} {qs : Props}
    (hmem : Stmt.upsertPension ow nid qs ∈ ss) (g : Graph) :
    nodeExists (ss.foldl applyStmt g) "Client" ow = true := by
  rcases List.append_of_mem hmem with ⟨as, bs, rfl⟩
  rw [List.foldl_append, List.foldl_cons]
  exact nodeExists_foldl_mono bs (nodeExists_applyStmt_upsertPension _ ow nid qs)

theorem nodeExists_foldl_of_upsertInvestment_mem {ss : List Stmt} {ow nid : String} {qs : Props}
    (hmem : Stmt.upsertInvestment ow nid qs ∈ ss) (g : Graph) :
    nodeExists (ss.foldl applyStmt g) "Client" ow = true := by
  rcases List.append_of_mem hmem with ⟨as, bs, rfl⟩
  rw [List.foldl_append, List.foldl_cons]
  exact nodeExists_foldl_mono bs (nodeExists_applyStmt_upsertInvestment _ ow nid qs)

/-- While processing a record none of whose clients resolves to name `o`, the
Client node `o` is either absent or carries exactly the bare `name` property
the pension/investment owner MERGE creates — no statement ever SETs
properties on it. -/
theorem foreign_owner_invariant_applyStmt {r : Record} {document_name o : String} {s : Stmt}
    (hs : s ∈ build_graph_stmts (some r) document_name)
    (ho : ∀ c ∈ r.clients, resolvedName c (primary_client_name r document_name) ≠ o)
    {g : Graph}
    (h : findNode g "Client" o = none ∨ findNode g "Client" o = some [("name", Val.s o)]) :
    findNode (applyStmt g s) "Client" o = none ∨
      findNode (applyStmt g s) "Client" o = some [("name", Val.s o)] := by
  rcases mem_build_graph_stmts_shape hs with
    ⟨a, rfl⟩ | ⟨c, hc, rfl⟩ | ⟨x, a, rfl⟩ | ⟨p, nid, qs, rfl⟩ | ⟨cx, nid, qs, rfl⟩ |
    ⟨ow, nid, qs, rfl⟩ | ⟨ow, nid, qs, rfl⟩ | ⟨cx, nid, qs, rfl⟩
  · rw [applyStmt, findNode_mergeNode_ne _ (fun hx => absurd hx.1 (by decide))]
    exact h
  · have hne := ho c hc
    rw [applyStmt, findNode_setPlusNode_ne _ _ (fun hx => hne hx.2.symm),
      findNode_mergeNode_ne _ (fun hx => hne hx.2.symm)]
    exact h
  · rw [applyStmt]
    split
    · rw [findNode_mergeRel]; exact h
    · exact h
  · rw [applyStmt]
    split
    · rw [findNode_mergeRel, findNode_setPlusNode_ne _ _ (fun hx => absurd hx.1 (by decide)),
        findNode_mergeNode_ne _ (fun hx => absurd hx.1 (by decide))]
      exact h
    · exact h
  · rw [applyStmt]
    split
    · rw [findNode_mergeRel, findNode_setPlusNode_ne _ _ (fun hx => absurd hx.1 (by decide)),
        findNode_mergeNode_ne _ (fun hx => absurd hx.1 (by decide))]
      exact h
    · exact h
  · rw [applyStmt, findNode_mergeRel,
      findNode_setPlusNode_ne _ _ (fun hx => absurd hx.1 (by decide)),
      findNode_mergeNode_ne _ (fun hx => absurd hx.1 (by decide))]
    by_cases how : ow = o
    · subst how
      rcases h with h | h
      · right
        rw [findNode_mergeNode_self_fresh _ (nodeExists_eq_false_of_findNode_eq_none h)]
      · right
        rw [mergeNode_of_exists _ (nodeExists_of_findNode_eq_some h)]
        exact h
    · rw [findNode_mergeNode_ne _ (fun hx => how hx.2.symm)]
      exact h
  · rw [applyStmt, findNode_mergeRel,
      findNode_setPlusNode_ne _ _ (fun hx => absurd hx.1 (by decide)),
      findNode_mergeNode_ne _ (fun hx => absurd hx.1 (by decide))]
    by_cases how : ow = o
    · subst how
      rcases h with h | h
      · right
        rw [findNode_mergeNode_self_fresh _ (nodeExists_eq_false_of_findNode_eq_none h)]
      · right
        rw [mergeNode_of_exists _ (nodeExists_of_findNode_eq_some h)]
        exact h
    · rw [findNode_mergeNode_ne _ (fun hx => how hx.2.symm)]
      exact h
  · rw [applyStmt]
    split
    · rw [findNode_mergeRel, findNode_setPlusNode_ne _ _ (fun hx => absurd hx.1 (by decide)),
        findNode_setPlusNode_ne _ _ (fun hx => absurd hx.1 (by decide)),
        findNode_mergeNode_ne _ (fun hx => absurd hx.1 (by decide))]
      exact h
    · exact h

theorem foreign_owner_invariant_foldl {r : Record} {document_name o : String} {ss : List Stmt}
    (hss : ∀ s ∈ ss, s ∈ build_graph_stmts (some r) document_name)
    (ho : ∀ c ∈ r.clients, resolvedName c (primary_client_name r document_name) ≠ o)
    {g : Graph}
    (h : findNode g "Client" o = none ∨ findNode g "Client" o = some [("name", Val.s o)]) :
    findNode (ss.foldl applyStmt g) "Client" o = none ∨
      findNode (ss.foldl applyStmt g) "Client" o = some [("name", Val.s o)] := by
  induction ss generalizing g with
  | nil => exact h
  | cons s t ih =>
      exact ih (fun x hx => hss x (List.mem_cons_of_mem _ hx))
        (foreign_owner_invariant_applyStmt (hss s (List.mem_cons_self _ _)) ho h)

/-- C9 (confirmed): a pension or investment whose owner differs from every
client name of the record makes the engine MERGE a Client node under that
owner name, carrying only its `name` property — in particular no
source_document tag — and exactly one such node; Property and Dependant
statements, by contrast, never create Client nodes (they only MATCH). -/
theorem c9_foreign_owner_creates_untagged_client (r : Record) (document_name o : String)
    (c0 : ClientRec) (cs : List ClientRec) (hr : r.clients = c0 :: cs)
    (ho : ∀ c ∈ r.clients, resolvedName c (primary_client_name r document_name) ≠ o)
    (hown : (∃ ip ∈ r.assets.pensions.enum, ip.2.owner = some o) ∨
            (∃ ip ∈ r.assets.investments.enum, ip.2.owner = some o)) :
    findNode (build_graph_from_entities emptyGraph (some r) document_name) "Client" o =
      some [("name", Val.s o)] ∧
    (keysOfLabel (build_graph_from_entities emptyGraph (some r) document_name)
      "Client").count o = 1 ∧
    lookupProp [("name", Val.s o)] "source_document" = none ∧
    (∀ (g : Graph) (cn nid : String) (qs : Props),
      keysOfLabel (applyStmt g (Stmt.upsertProperty cn nid qs)) "Client" =
        keysOfLabel g "Client" ∧
      keysOfLabel (applyStmt g (Stmt.upsertDependant cn nid qs)) "Client" =
        keysOfLabel g "Client") := by
  have hco : c0 ∈ r.clients := by rw [hr]; exact List.mem_cons_self _ _
  have hex : nodeExists (build_graph_from_entities emptyGraph (some r) document_name)
      "Client" o = true := by
    rcases hown with ⟨⟨i, pen⟩, hip, hosome⟩ | ⟨⟨i, inv⟩, hip, hosome⟩
    · have hmem := upsertPension_mem_build_graph_stmts hip hco document_name
      rw [hosome] at hmem
      simp only [Option.getD_some] at hmem
      exact nodeExists_foldl_of_upsertPension_mem hmem _
    · have hmem := upsertInvestment_mem_build_graph_stmts hip hco document_name
      rw [hosome] at hmem
      simp only [Option.getD_some] at hmem
      exact nodeExists_foldl_of_upsertInvestment_mem hmem _
  have hq := foreign_owner_invariant_foldl (fun s hs => hs) ho
    (Or.inl (rfl : findNode emptyGraph "Client" o = none))
  have hfind : findNode (build_graph_from_entities emptyGraph (some r) document_name)
      "Client" o = some [("name", Val.s o)] := by
    rcases hq with hq | hq
    · exfalso
      have hfalse : nodeExists (build_graph_from_entities emptyGraph (some r) document_name)
          "Client" o = false := nodeExists_eq_false_of_findNode_eq_none hq
      rw [hfalse] at hex
      cases hex
    · exact hq
  refine ⟨hfind, ?_, rfl, ?_⟩
  · exact List.count_eq_one_of_mem ((goodGraph_foldl _ goodGraph_empty) "Client")
      ((nodeExists_iff_mem_keysOfLabel _ _ _).mp hex)
  · intro g cn nid qs
    constructor
    · exact keysOfLabel_applyStmt_of_not_touches
        (rfl : stmtTouches (Stmt.upsertProperty cn nid qs) "Client" = false) g
    · exact keysOfLabel_applyStmt_of_not_touches
        (rfl : stmtTouches (Stmt.upsertDependant cn nid qs) "Client" = false) g

/-- Witness for C9 at a concrete record: client "A", pension owned by "X". -/
theorem c9_witness :
    findNode (build_graph_from_entities emptyGraph
        (some ⟨none, [⟨some "A", []⟩], [],
          ⟨[], [⟨some "X", [("type", Val.s "SIPP")]⟩], []⟩, ⟨none⟩⟩) "d") "Client" "X" =
      some [("name", Val.s "X")] ∧
    (keysOfLabel (build_graph_from_entities emptyGraph
        (some ⟨none, [⟨some "A", []⟩], [],
          ⟨[], [⟨some "X", [("type", Val.s "SIPP")]⟩], []⟩, ⟨none⟩⟩) "d") "Client").count "X" = 1 ∧
    lookupProp [("name", Val.s "X")] "source_document" = none ∧
    (∀ (g : Graph) (cn nid : String) (qs : Props),
      keysOfLabel (applyStmt g (Stmt.upsertProperty cn nid qs)) "Client" =
        keysOfLabel g "Client" ∧
      keysOfLabel (applyStmt g (Stmt.upsertDependant cn nid qs)) "Client" =
        keysOfLabel g "Client") :=
  c9_foreign_owner_creates_untagged_client
    ⟨none, [⟨some "A", []⟩], [], ⟨[], [⟨some "X", [("type", Val.s "SIPP")]⟩], []⟩, ⟨none⟩⟩
    "d" "X" ⟨some "A", []⟩ [] rfl (by decide)
    (Or.inl ⟨(0, ⟨some "X", [("type", Val.s "SIPP")]⟩), by decide, rfl⟩)

/-! ### C4 — positional identifiers, counts and links -/

theorem string_append_assoc (p a b : String) : p ++ a ++ b = p ++ (a ++ b) := by
  apply String.ext
  simp [String.data_append]

theorem string_append_right_ne (p : String) {a b : String} (h : a ≠ b) :
    p ++ a ≠ p ++ b := by
  intro hx
  apply h
  apply String.ext
  have hdx := congrArg String.data hx
  rw [String.data_append, String.data_append] at hdx
  exact List.append_cancel_left hdx

theorem resolvedName_head {r : Record} {c0 : ClientRec} {cs : List ClientRec}
    (hr : r.clients = c0 :: cs) (document_name : String) :
    resolvedName c0 (primary_client_name r document_name) =
      primary_client_name r document_name := by
  unfold primary_client_name resolvedName
  rw [hr]
  dsimp only
  cases c0.name <;> rfl

theorem mem_adviserStmts_shape {s : Stmt} {r : Record} (h : s ∈ adviserStmts r) :
    ∃ a, s = Stmt.mergeAdviser a := by
  unfold adviserStmts at h
  split at h
  · cases h
  · split at h
    · cases h
    · rcases List.mem_singleton.mp h with rfl
      exact ⟨_, rfl⟩

theorem mem_clientStmts_shape {s : Stmt} {r : Record} {document_name : String}
    (h : s ∈ clientStmts r document_name) :
    (∃ nm ps, s = Stmt.upsertClient nm ps) ∨ (∃ nm a, s = Stmt.linkAdvises nm a) := by
  unfold clientStmts at h
  rcases List.mem_flatten.mp h with ⟨grp, hgrp, hs⟩
  rcases List.mem_map.mp hgrp with ⟨c, hc, rfl⟩
  rcases List.mem_cons.mp hs with rfl | hs
  · exact Or.inl ⟨_, _, rfl⟩
  · split at hs
    · cases hs
    · split at hs
      · cases hs
      · rcases List.mem_singleton.mp hs with rfl
        exact Or.inr ⟨_, _, rfl⟩

theorem mem_pensionStmts_shape {s : Stmt} {r : Record} {document_name : String}
    (h : s ∈ pensionStmts r document_name) :
    ∃ ow nid ps, s = Stmt.upsertPension ow nid ps := by
  unfold pensionStmts at h
  rcases List.mem_map.mp h with ⟨x, _, rfl⟩
  exact ⟨_, _, _, rfl⟩

theorem mem_investmentStmts_shape {s : Stmt} {r : Record} {document_name : String}
    (h : s ∈ investmentStmts r document_name) :
    ∃ ow nid ps, s = Stmt.upsertInvestment ow nid ps := by
  unfold investmentStmts at h
  rcases List.mem_map.mp h with ⟨x, _, rfl⟩
  exact ⟨_, _, _, rfl⟩

theorem mem_goalStmts_shape {s : Stmt} {r : Record} {document_name : String}
    (h : s ∈ goalStmts r document_name) :
    ∃ c nid ps, s = Stmt.upsertGoal c nid ps := by
  unfold goalStmts at h
  split at h
  · cases h
  · split at h
    · cases h
    · rcases List.mem_singleton.mp h with rfl
      exact ⟨_, _, _, rfl⟩

/-- None of the adviser/client/pension/investment/goal sections creates nodes
labelled `l` when `l` is none of their labels. -/
theorem sections_not_touches (r : Record) (document_name : String) (l : String)
    (hA : l ≠ "Adviser") (hC : l ≠ "Client") (hPe : l ≠ "Pension") (hI : l ≠ "Investment")
    (hG : l ≠ "Goal") :
    (∀ s ∈ adviserStmts r, stmtTouches s l = false) ∧
    (∀ s ∈ clientStmts r document_name, stmtTouches s l = false) ∧
    (∀ s ∈ pensionStmts r document_name, stmtTouches s l = false) ∧
    (∀ s ∈ investmentStmts r document_name, stmtTouches s l = false) ∧
    (∀ s ∈ goalStmts r document_name, stmtTouches s l = false) := by
  refine ⟨?_, ?_, ?_, ?_, ?_⟩
  · intro s hs
    rcases mem_adviserStmts_shape hs with ⟨a, rfl⟩
    simp [stmtTouches, hA]
  · intro s hs
    rcases mem_clientStmts_shape hs with ⟨nm, ps, rfl⟩ | ⟨nm, a, rfl⟩
    · simp [stmtTouches, hC]
    · simp [stmtTouches]
  · intro s hs
    rcases mem_pensionStmts_shape hs with ⟨ow, nid, ps, rfl⟩
    simp [stmtTouches, hC, hPe]
  · intro s hs
    rcases mem_investmentStmts_shape hs with ⟨ow, nid, ps, rfl⟩
    simp [stmtTouches, hC, hI]
  · intro s hs
    rcases mem_goalStmts_shape hs with ⟨c, nid, ps, rfl⟩
    simp [stmtTouches, hG]

/-- Effect of one dependant upsert when the parent client exists and the id is
fresh: one new Dependant node, other labels untouched, PARENT_OF link made. -/
theorem depStep (g : Graph) (p nid : String) (ps : Props)
    (hcl : nodeExists g "Client" p = true)
    (hfresh : nid ∉ keysOfLabel g "Dependant") :
    keysOfLabel (applyStmt g (Stmt.upsertDependant p nid ps)) "Dependant" =
      keysOfLabel g "Dependant" ++ [nid] ∧
    (∀ l, l ≠ "Dependant" →
      keysOfLabel (applyStmt g (Stmt.upsertDependant p nid ps)) l = keysOfLabel g l) ∧
    relExists (applyStmt g (Stmt.upsertDependant p nid ps))
      ⟨"PARENT_OF", "Client", p, "Dependant", nid⟩ = true := by
  rw [applyStmt, if_pos hcl]
  refine ⟨?_, ?_, ?_⟩
  · rw [keysOfLabel_mergeRel, keysOfLabel_setPlusNode, keysOfLabel_mergeNode_self,
      if_neg (fun hx => hfresh ((nodeExists_iff_mem_keysOfLabel _ _ _).mp hx))]
  · intro l hl
    rw [keysOfLabel_mergeRel, keysOfLabel_setPlusNode, keysOfLabel_mergeNode_ne _ _ _ hl]
  · exact relExists_mergeRel_self _ _

/-- Effect of one property upsert when the client exists and the id is fresh. -/
theorem propStep (g : Graph) (p nid : String) (ps : Props)
    (hcl : nodeExists g "Client" p = true)
    (hfresh : nid ∉ keysOfLabel g "Property") :
    keysOfLabel (applyStmt g (Stmt.upsertProperty p nid ps)) "Property" =
      keysOfLabel g "Property" ++ [nid] ∧
    (∀ l, l ≠ "Property" →
      keysOfLabel (applyStmt g (Stmt.upsertProperty p nid ps)) l = keysOfLabel g l) ∧
    relExists (applyStmt g (Stmt.upsertProperty p nid ps))
      ⟨"OWNS", "Client", p, "Property", nid⟩ = true := by
  rw [applyStmt, if_pos hcl]
  refine ⟨?_, ?_, ?_⟩
  · rw [keysOfLabel_mergeRel, keysOfLabel_setPlusNode, keysOfLabel_mergeNode_self,
      if_neg (fun hx => hfresh ((nodeExists_iff_mem_keysOfLabel _ _ _).mp hx))]
  · intro l hl
    rw [keysOfLabel_mergeRel, keysOfLabel_setPlusNode, keysOfLabel_mergeNode_ne _ _ _ hl]
  · exact relExists_mergeRel_self _ _

/-- Folding the two dependant upserts of a two-dependant record over a graph
with no Dependant nodes and an existing primary client. -/
theorem dep_pair_fold (g : Graph) (P idd0 idd1 : String) (dps0 dps1 : Props)
    (hcl : nodeExists g "Client" P = true)
    (hdep0 : keysOfLabel g "Dependant" = [])
    (hne : idd0 ≠ idd1) :
    keysOfLabel (applyStmt (applyStmt g (Stmt.upsertDependant P idd0 dps0))
        (Stmt.upsertDependant P idd1 dps1)) "Dependant" = [idd0, idd1] ∧
    (∀ l, l ≠ "Dependant" →
      keysOfLabel (applyStmt (applyStmt g (Stmt.upsertDependant P idd0 dps0))
        (Stmt.upsertDependant P idd1 dps1)) l = keysOfLabel g l) ∧
    relExists (applyStmt (applyStmt g (Stmt.upsertDependant P idd0 dps0))
        (Stmt.upsertDependant P idd1 dps1))
      ⟨"PARENT_OF", "Client", P, "Dependant", idd0⟩ = true ∧
    relExists (applyStmt (applyStmt g (Stmt.upsertDependant P idd0 dps0))
        (Stmt.upsertDependant P idd1 dps1))
      ⟨"PARENT_OF", "Client", P, "Dependant", idd1⟩ = true := by
  have h0 := depStep g P idd0 dps0 hcl (by rw [hdep0]; exact List.not_mem_nil _)
  have hcl1 : nodeExists (applyStmt g (Stmt.upsertDependant P idd0 dps0)) "Client" P = true := by
    rw [nodeExists_iff_mem_keysOfLabel, h0.2.1 "Client" (by decide),
      ← nodeExists_iff_mem_keysOfLabel]
    exact hcl
  have h1 := depStep (applyStmt g (Stmt.upsertDependant P idd0 dps0)) P idd1 dps1 hcl1
    (by
      rw [h0.1, hdep0, List.nil_append]
      intro hx
      exact hne (List.mem_singleton.mp hx).symm)
  refine ⟨?_, ?_, ?_, h1.2.2⟩
  · rw [h1.1, h0.1, hdep0]
    rfl
  · intro l hl
    rw [h1.2.1 l hl, h0.2.1 l hl]
  · exact relExists_applyStmt_mono _ h0.2.2

/-- Folding the three property upserts of a three-property record over a graph
with no Property nodes and an existing primary client. -/
theorem prop_triple_fold (g : Graph) (P idp0 idp1 idp2 : String) (pps0 pps1 pps2 : Props)
    (hcl : nodeExists g "Client" P = true)
    (hprop0 : keysOfLabel g "Property" = [])
    (hne01 : idp0 ≠ idp1) (hne02 : idp0 ≠ idp2) (hne12 : idp1 ≠ idp2) :
    keysOfLabel (applyStmt (applyStmt (applyStmt g (Stmt.upsertProperty P idp0 pps0))
        (Stmt.upsertProperty P idp1 pps1)) (Stmt.upsertProperty P idp2 pps2))
      "Property" = [idp0, idp1, idp2] ∧
    (∀ l, l ≠ "Property" →
      keysOfLabel (applyStmt (applyStmt (applyStmt g (Stmt.upsertProperty P idp0 pps0))
        (Stmt.upsertProperty P idp1 pps1)) (Stmt.upsertProperty P idp2 pps2)) l =
      keysOfLabel g l) ∧
    relExists (applyStmt (applyStmt (applyStmt g (Stmt.upsertProperty P idp0 pps0))
        (Stmt.upsertProperty P idp1 pps1)) (Stmt.upsertProperty P idp2 pps2))
      ⟨"OWNS", "Client", P, "Property", idp0⟩ = true ∧
    relExists (applyStmt (applyStmt (applyStmt g (Stmt.upsertProperty P idp0 pps0))
        (Stmt.upsertProperty P idp1 pps1)) (Stmt.upsertProperty P idp2 pps2))
      ⟨"OWNS", "Client", P, "Property", idp1⟩ = true ∧
    relExists (applyStmt (applyStmt (applyStmt g (Stmt.upsertProperty P idp0 pps0))
        (Stmt.upsertProperty P idp1 pps1)) (Stmt.upsertProperty P idp2 pps2))
      ⟨"OWNS", "Client", P, "Property", idp2⟩ = true := by
  have h0 := propStep g P idp0 pps0 hcl (by rw [hprop0]; exact List.not_mem_nil _)
  have hcl1 : nodeExists (applyStmt g (Stmt.upsertProperty P idp0 pps0)) "Client" P = true := by
    rw [nodeExists_iff_mem_keysOfLabel, h0.2.1 "Client" (by decide),
      ← nodeExists_iff_mem_keysOfLabel]
    exact hcl
  have h1 := propStep (applyStmt g (Stmt.upsertProperty P idp0 pps0)) P idp1 pps1 hcl1
    (by
      rw [h0.1, hprop0, List.nil_append]
      intro hx
      exact hne01 (List.mem_singleton.mp hx).symm)
  have hcl2 : nodeExists (applyStmt (applyStmt g (Stmt.upsertProperty P idp0 pps0))
      (Stmt.upsertProperty P idp1 pps1)) "Client" P = true := by
    rw [nodeExists_iff_mem_keysOfLabel, h1.2.1 "Client" (by decide),
      ← nodeExists_iff_mem_keysOfLabel]
    exact hcl1
  have h2 := propStep (applyStmt (applyStmt g (Stmt.upsertProperty P idp0 pps0))
      (Stmt.upsertProperty P idp1 pps1)) P idp2 pps2 hcl2
    (by
      rw [h1.1, h0.1, hprop0, List.nil_append]
      intro hx
      rcases List.mem_append.mp hx with hx | hx
      · exact hne02 (List.mem_singleton.mp hx).symm
      · exact hne12 (List.mem_singleton.mp hx).symm)
  refine ⟨?_, ?_, ?_, ?_, h2.2.2⟩
  · rw [h2.1, h1.1, h0.1, hprop0]
    rfl
  · intro l hl
    rw [h2.2.1 l hl, h1.2.1 l hl, h0.2.1 l hl]
  · exact relExists_applyStmt_mono _ (relExists_applyStmt_mono _ h0.2.2)
  · exact relExists_applyStmt_mono _ h1.2.2

/-- C4 (confirmed): for a record with at least one client, two dependants and
three properties, the engine creates exactly the Dependant nodes
`{primary}_dep_0`, `{primary}_dep_1` and exactly the Property nodes
`{primary}_prop_0..2`, each linked to the primary client (PARENT_OF / OWNS);
every pension/investment at index i is upserted under
`{owner}_pen_i` / `{owner}_inv_i` with the owner defaulting to the primary
client. -/
theorem c4_positional_ids_counts_links (r : Record) (document_name : String)
    (c0 : ClientRec) (cs : List ClientRec) (hr : r.clients = c0 :: cs)
    (d0 d1 : DepRec) (hdep : r.dependants = [d0, d1])
    (q0 q1 q2 : PropertyRec) (hqs : r.assets.properties = [q0, q1, q2]) :
    keysOfLabel (build_graph_from_entities emptyGraph (some r) document_name) "Dependant" =
      [primary_client_name r document_name ++ "_dep_0",
       primary_client_name r document_name ++ "_dep_1"] ∧
    keysOfLabel (build_graph_from_entities emptyGraph (some r) document_name) "Property" =
      [primary_client_name r document_name ++ "_prop_0",
       primary_client_name r document_name ++ "_prop_1",
       primary_client_name r document_name ++ "_prop_2"] ∧
    (∀ nid ∈ [primary_client_name r document_name ++ "_dep_0",
              primary_client_name r document_name ++ "_dep_1"],
      relExists (build_graph_from_entities emptyGraph (some r) document_name)
        ⟨"PARENT_OF", "Client", primary_client_name r document_name, "Dependant", nid⟩ = true) ∧
    (∀ nid ∈ [primary_client_name r document_name ++ "_prop_0",
              primary_client_name r document_name ++ "_prop_1",
              primary_client_name r document_name ++ "_prop_2"],
      relExists (build_graph_from_entities emptyGraph (some r) document_name)
        ⟨"OWNS", "Client", primary_client_name r document_name, "Property", nid⟩ = true) ∧
    (∀ i pen, (i, pen) ∈ r.assets.pensions.enum →
      Stmt.upsertPension (pen.owner.getD (primary_client_name r document_name))
        (pen.owner.getD (primary_client_name r document_name) ++ "_pen_" ++ toString i)
        pen.props ∈ build_graph_stmts (some r) document_name) ∧
    (∀ i inv, (i, inv) ∈ r.assets.investments.enum →
      Stmt.upsertInvestment (inv.owner.getD (primary_client_name r document_name))
        (inv.owner.getD (primary_client_name r document_name) ++ "_inv_" ++ toString i)
        inv.props ∈ build_graph_stmts (some r) document_name) := by
  have hco : c0 ∈ r.clients := by rw [hr]; exact List.mem_cons_self _ _
  have hrn0 := resolvedName_head hr document_name
  have hndep := sections_not_touches r document_name "Dependant"
    (by decide) (by decide) (by decide) (by decide) (by decide)
  have hnprop := sections_not_touches r document_name "Property"
    (by decide) (by decide) (by decide) (by decide) (by decide)
  have hstmts : build_graph_stmts (some r) document_name =
      adviserStmts r ++ (clientStmts r document_name ++ depStmts r document_name ++
        propertyStmts r document_name ++ pensionStmts r document_name ++
        investmentStmts r document_name ++ goalStmts r document_name) := by
    rw [build_graph_stmts, hr]
    rfl
  have hdstmts : depStmts r document_name =
      [Stmt.upsertDependant (primary_client_name r document_name)
        (primary_client_name r document_name ++ "_dep_0") d0.props,
       Stmt.upsertDependant (primary_client_name r document_name)
        (primary_client_name r document_name ++ "_dep_1") d1.props] := by
    unfold depStmts
    rw [hdep]
    dsimp [List.enum, List.enumFrom]
    rw [string_append_assoc, string_append_assoc,
      (by decide : ("_dep_" : String) ++ toString (0 : Nat) = "_dep_0"),
      (by decide : ("_dep_" : String) ++ toString (1 : Nat) = "_dep_1")]
  have hqstmts : propertyStmts r document_name =
      [Stmt.upsertProperty (primary_client_name r document_name)
        (primary_client_name r document_name ++ "_prop_0") q0.props,
       Stmt.upsertProperty (primary_client_name r document_name)
        (primary_client_name r document_name ++ "_prop_1") q1.props,
       Stmt.upsertProperty (primary_client_name r document_name)
        (primary_client_name r document_name ++ "_prop_2") q2.props] := by
    unfold propertyStmts
    rw [hqs]
    dsimp [List.enum, List.enumFrom]
    rw [string_append_assoc, string_append_assoc, string_append_assoc,
      (by decide : ("_prop_" : String) ++ toString (0 : Nat) = "_prop_0"),
      (by decide : ("_prop_" : String) ++ toString (1 : Nat) = "_prop_1"),
      (by decide : ("_prop_" : String) ++ toString (2 : Nat) = "_prop_2")]
  have hGmain :
      keysOfLabel (build_graph_from_entities emptyGraph (some r) document_name) "Dependant" =
        [primary_client_name r document_name ++ "_dep_0",
         primary_client_name r document_name ++ "_dep_1"] ∧
      keysOfLabel (build_graph_from_entities emptyGraph (some r) document_name) "Property" =
        [primary_client_name r document_name ++ "_prop_0",
         primary_client_name r document_name ++ "_prop_1",
         primary_client_name r document_name ++ "_prop_2"] ∧
      (∀ nid ∈ [primary_client_name r document_name ++ "_dep_0",
                primary_client_name r document_name ++ "_dep_1"],
        relExists (build_graph_from_entities emptyGraph (some r) document_name)
          ⟨"PARENT_OF", "Client", primary_client_name r document_name, "Dependant", nid⟩
          = true) ∧
      (∀ nid ∈ [primary_client_name r document_name ++ "_prop_0",
                primary_client_name r document_name ++ "_prop_1",
                primary_client_name r document_name ++ "_prop_2"],
        relExists (build_graph_from_entities emptyGraph (some r) document_name)
          ⟨"OWNS", "Client", primary_client_name r document_name, "Property", nid⟩
          = true) := by
    rw [build_graph_from_entities, hstmts]
    simp only [List.foldl_append]
    rw [hdstmts, hqstmts]
    simp only [List.foldl_cons, List.foldl_nil]
    obtain ⟨g2, hg2⟩ : ∃ x, x = (clientStmts r document_name).foldl applyStmt
        ((adviserStmts r).foldl applyStmt emptyGraph) := ⟨_, rfl⟩
    rw [← hg2]
    have hg2cl : nodeExists g2 "Client" (primary_client_name r document_name) = true := by
      rw [hg2]
      have hmem := upsertClient_mem_clientStmts hco document_name
      rw [hrn0] at hmem
      exact nodeExists_foldl_of_upsertClient_mem hmem _
    have hg2dep : keysOfLabel g2 "Dependant" = [] := by
      rw [hg2, keysOfLabel_foldl_of_not_touches hndep.2.1,
        keysOfLabel_foldl_of_not_touches hndep.1]
      rfl
    have hg2prop : keysOfLabel g2 "Property" = [] := by
      rw [hg2, keysOfLabel_foldl_of_not_touches hnprop.2.1,
        keysOfLabel_foldl_of_not_touches hnprop.1]
      rfl
    have hdp := dep_pair_fold g2 (primary_client_name r document_name)
      (primary_client_name r document_name ++ "_dep_0")
      (primary_client_name r document_name ++ "_dep_1")
      d0.props d1.props hg2cl hg2dep (string_append_right_ne _ (by decide))
    obtain ⟨g3, hg3⟩ : ∃ x, x = applyStmt (applyStmt g2
        (Stmt.upsertDependant (primary_client_name r document_name)
          (primary_client_name r document_name ++ "_dep_0") d0.props))
        (Stmt.upsertDependant (primary_client_name r document_name)
          (primary_client_name r document_name ++ "_dep_1") d1.props) := ⟨_, rfl⟩
    rw [← hg3] at hdp ⊢
    have hg3cl : nodeExists g3 "Client" (primary_client_name r document_name) = true := by
      rw [nodeExists_iff_mem_keysOfLabel, hdp.2.1 "Client" (by decide),
        ← nodeExists_iff_mem_keysOfLabel]
      exact hg2cl
    have hg3prop : keysOfLabel g3 "Property" = [] := by
      rw [hdp.2.1 "Property" (by decide)]
      exact hg2prop
    have hpp := prop_triple_fold g3 (primary_client_name r document_name)
      (primary_client_name r document_name ++ "_prop_0")
      (primary_client_name r document_name ++ "_prop_1")
      (primary_client_name r document_name ++ "_prop_2")
      q0.props q1.props q2.props hg3cl hg3prop
      (string_append_right_ne _ (by decide)) (string_append_right_ne _ (by decide))
      (string_append_right_ne _ (by decide))
    obtain ⟨g4, hg4⟩ : ∃ x, x = applyStmt (applyStmt (applyStmt g3
        (Stmt.upsertProperty (primary_client_name r document_name)
          (primary_client_name r document_name ++ "_prop_0") q0.props))
        (Stmt.upsertProperty (primary_client_name r document_name)
          (primary_client_name r document_name ++ "_prop_1") q1.props))
        (Stmt.upsertProperty (primary_client_name r document_name)
          (primary_client_name r document_name ++ "_prop_2") q2.props) := ⟨_, rfl⟩
    rw [← hg4] at hpp ⊢
    have hrel34 : ∀ e, relExists g3 e = true → relExists g4 e = true := by
      intro e he
      rw [hg4]
      exact relExists_applyStmt_mono _ (relExists_applyStmt_mono _
        (relExists_applyStmt_mono _ he))
    obtain ⟨g7, hg7⟩ : ∃ x, x = (goalStmts r document_name).foldl applyStmt
        ((investmentStmts r document_name).foldl applyStmt
          ((pensionStmts r document_name).foldl applyStmt g4)) := ⟨_, rfl⟩
    rw [← hg7]
    have hkeep : ∀ l, (∀ s ∈ pensionStmts r document_name, stmtTouches s l = false) →
        (∀ s ∈ investmentStmts r document_name, stmtTouches s l = false) →
        (∀ s ∈ goalStmts r document_name, stmtTouches s l = false) →
        keysOfLabel g7 l = keysOfLabel g4 l := by
      intro l h1 h2 h3
      rw [hg7, keysOfLabel_foldl_of_not_touches h3, keysOfLabel_foldl_of_not_touches h2,
        keysOfLabel_foldl_of_not_touches h1]
    have hreldone : ∀ e, relExists g4 e = true → relExists g7 e = true := by
      intro e he
      rw [hg7]
      exact relExists_foldl_mono _ (relExists_foldl_mono _ (relExists_foldl_mono _ he))
    refine ⟨?_, ?_, ?_, ?_⟩
    · rw [hkeep "Dependant" hndep.2.2.1 hndep.2.2.2.1 hndep.2.2.2.2,
        hpp.2.1 "Dependant" (by decide)]
      exact hdp.1
    · rw [hkeep "Property" hnprop.2.2.1 hnprop.2.2.2.1 hnprop.2.2.2.2]
      exact hpp.1
    · intro nid hnid
      rcases List.mem_cons.mp hnid with rfl | hnid
      · exact hreldone _ (hrel34 _ hdp.2.2.1)
      · rcases List.mem_singleton.mp hnid with rfl
        exact hreldone _ (hrel34 _ hdp.2.2.2)
    · intro nid hnid
      rcases List.mem_cons.mp hnid with rfl | hnid
      · exact hreldone _ hpp.2.2.1
      · rcases List.mem_cons.mp hnid with rfl | hnid
        · exact hreldone _ hpp.2.2.2.1
        · rcases List.mem_singleton.mp hnid with rfl
          exact hreldone _ hpp.2.2.2.2
  refine ⟨hGmain.1, hGmain.2.1, hGmain.2.2.1, hGmain.2.2.2, ?_, ?_⟩
  · intro i pen hip
    exact upsertPension_mem_build_graph_stmts hip hco document_name
  · intro i inv hip
    exact upsertInvestment_mem_build_graph_stmts hip hco document_name

/-- Witness for C4 at a concrete record: one client "A", two dependants,
three properties. -/
theorem c4_witness :
    keysOfLabel (build_graph_from_entities emptyGraph
        (some ⟨none, [⟨some "A", []⟩], [⟨[]⟩, ⟨[]⟩],
          ⟨[⟨[]⟩, ⟨[]⟩, ⟨[]⟩], [], []⟩, ⟨none⟩⟩) "d") "Dependant" =
      [primary_client_name ⟨none, [⟨some "A", []⟩], [⟨[]⟩, ⟨[]⟩],
          ⟨[⟨[]⟩, ⟨[]⟩, ⟨[]⟩], [], []⟩, ⟨none⟩⟩ "d" ++ "_dep_0",
       primary_client_name ⟨none, [⟨some "A", []⟩], [⟨[]⟩, ⟨[]⟩],
          ⟨[⟨[]⟩, ⟨[]⟩, ⟨[]⟩], [], []⟩, ⟨none⟩⟩ "d" ++ "_dep_1"] ∧
    keysOfLabel (build_graph_from_entities emptyGraph
        (some ⟨none, [⟨some "A", []⟩], [⟨[]⟩, ⟨[]⟩],
          ⟨[⟨[]⟩, ⟨[]⟩, ⟨[]⟩], [], []⟩, ⟨none⟩⟩) "d") "Property" =
      [primary_client_name ⟨none, [⟨some "A", []⟩], [⟨[]⟩, ⟨[]⟩],
          ⟨[⟨[]⟩, ⟨[]⟩, ⟨[]⟩], [], []⟩, ⟨none⟩⟩ "d" ++ "_prop_0",
       primary_client_name ⟨none, [⟨some "A", []⟩], [⟨[]⟩, ⟨[]⟩],
          ⟨[⟨[]⟩, ⟨[]⟩, ⟨[]⟩], [], []⟩, ⟨none⟩⟩ "d" ++ "_prop_1",
       primary_client_name ⟨none, [⟨some "A", []⟩], [⟨[]⟩, ⟨[]⟩],
          ⟨[⟨[]⟩, ⟨[]⟩, ⟨[]⟩], [], []⟩, ⟨none⟩⟩ "d" ++ "_prop_2"] ∧
    (∀ nid ∈ [primary_client_name ⟨none, [⟨some "A", []⟩], [⟨[]⟩, ⟨[]⟩],
          ⟨[⟨[]⟩, ⟨[]⟩, ⟨[]⟩], [], []⟩, ⟨none⟩⟩ "d" ++ "_dep_0",
        primary_client_name ⟨none, [⟨some "A", []⟩], [⟨[]⟩, ⟨[]⟩],
          ⟨[⟨[]⟩, ⟨[]⟩, ⟨[]⟩], [], []⟩, ⟨none⟩⟩ "d" ++ "_dep_1"],
      relExists (build_graph_from_entities emptyGraph
          (some ⟨none, [⟨some "A", []⟩], [⟨[]⟩, ⟨[]⟩],
            ⟨[⟨[]⟩, ⟨[]⟩, ⟨[]⟩], [], []⟩, ⟨none⟩⟩) "d")
        ⟨"PARENT_OF", "Client", primary_client_name ⟨none, [⟨some "A", []⟩], [⟨[]⟩, ⟨[]⟩],
          ⟨[⟨[]⟩, ⟨[]⟩, ⟨[]⟩], [], []⟩, ⟨none⟩⟩ "d", "Dependant", nid⟩ = true) ∧
    (∀ nid ∈ [primary_client_name ⟨none, [⟨some "A", []⟩], [⟨[]⟩, ⟨[]⟩],
          ⟨[⟨[]⟩, ⟨[]⟩, ⟨[]⟩], [], []⟩, ⟨none⟩⟩ "d" ++ "_prop_0",
        primary_client_name ⟨none, [⟨some "A", []⟩], [⟨[]⟩, ⟨[]⟩],
          ⟨[⟨[]⟩, ⟨[]⟩, ⟨[]⟩], [], []⟩, ⟨none⟩⟩ "d" ++ "_prop_1",
        primary_client_name ⟨none, [⟨some "A", []⟩], [⟨[]⟩, ⟨[]⟩],
          ⟨[⟨[]⟩, ⟨[]⟩, ⟨[]⟩], [], []⟩, ⟨none⟩⟩ "d" ++ "_prop_2"],
      relExists (build_graph_from_entities emptyGraph
          (some ⟨none, [⟨some "A", []⟩], [⟨[]⟩, ⟨[]⟩],
            ⟨[⟨[]⟩, ⟨[]⟩, ⟨[]⟩], [], []⟩, ⟨none⟩⟩) "d")
        ⟨"OWNS", "Client", primary_client_name ⟨none, [⟨some "A", []⟩], [⟨[]⟩, ⟨[]⟩],
          ⟨[⟨[]⟩, ⟨[]⟩, ⟨[]⟩], [], []⟩, ⟨none⟩⟩ "d", "Property", nid⟩ = true) ∧
    (∀ i pen, (i, pen) ∈ (⟨none, [⟨some "A", []⟩], [⟨[]⟩, ⟨[]⟩],
          ⟨[⟨[]⟩, ⟨[]⟩, ⟨[]⟩], [], []⟩, ⟨none⟩⟩ : Record).assets.pensions.enum →
      Stmt.upsertPension (pen.owner.getD (primary_client_name ⟨none, [⟨some "A", []⟩],
          [⟨[]⟩, ⟨[]⟩], ⟨[⟨[]⟩, ⟨[]⟩, ⟨[]⟩], [], []⟩, ⟨none⟩⟩ "d"))
        (pen.owner.getD (primary_client_name ⟨none, [⟨some "A", []⟩], [⟨[]⟩, ⟨[]⟩],
          ⟨[⟨[]⟩, ⟨[]⟩, ⟨[]⟩], [], []⟩, ⟨none⟩⟩ "d") ++ "_pen_" ++ toString i)
        pen.props ∈ build_graph_stmts (some ⟨none, [⟨some "A", []⟩], [⟨[]⟩, ⟨[]⟩],
          ⟨[⟨[]⟩, ⟨[]⟩, ⟨[]⟩], [], []⟩, ⟨none⟩⟩) "d") ∧
    (∀ i inv, (i, inv) ∈ (⟨none, [⟨some "A", []⟩], [⟨[]⟩, ⟨[]⟩],
          ⟨[⟨[]⟩, ⟨[]⟩, ⟨[]⟩], [], []⟩, ⟨none⟩⟩ : Record).assets.investments.enum →
      Stmt.upsertInvestment (inv.owner.getD (primary_client_name ⟨none, [⟨some "A", []⟩],
          [⟨[]⟩, ⟨[]⟩], ⟨[⟨[]⟩, ⟨[]⟩, ⟨[]⟩], [], []⟩, ⟨none⟩⟩ "d"))
        (inv.owner.getD (primary_client_name ⟨none, [⟨some "A", []⟩], [⟨[]⟩, ⟨[]⟩],
          ⟨[⟨[]⟩, ⟨[]⟩, ⟨[]⟩], [], []⟩, ⟨none⟩⟩ "d") ++ "_inv_" ++ toString i)
        inv.props ∈ build_graph_stmts (some ⟨none, [⟨some "A", []⟩], [⟨[]⟩, ⟨[]⟩],
          ⟨[⟨[]⟩, ⟨[]⟩, ⟨[]⟩], [], []⟩, ⟨none⟩⟩) "d") :=
  c4_positional_ids_counts_links
    ⟨none, [⟨some "A", []⟩], [⟨[]⟩, ⟨[]⟩], ⟨[⟨[]⟩, ⟨[]⟩, ⟨[]⟩], [], []⟩, ⟨none⟩⟩ "d"
    ⟨some "A", []⟩ [] rfl ⟨[]⟩ ⟨[]⟩ rfl ⟨[]⟩ ⟨[]⟩ ⟨[]⟩ rfl

/-! ### C6 / C8 / C10 — batch orchestrator -/

theorem processStep_eq (c : Nat × Nat) (d : Doc) :
    processStep c d = if processDoc d = DocOutcome.success then (c.1 + 1, c.2)
      else (c.1, c.2 + 1) := by
  unfold processStep
  cases processDoc d <;> simp

theorem successCount_cons (d : Doc) (t : List Doc) :
    successCount (d :: t) =
      (if processDoc d = DocOutcome.success then 1 else 0) + successCount t := by
  unfold successCount
  rw [List.filter_cons]
  by_cases hd : processDoc d = DocOutcome.success
  · simp [hd]
    omega
  · simp [hd]

theorem failCount_cons (d : Doc) (t : List Doc) :
    failCount (d :: t) =
      (if processDoc d = DocOutcome.success then 0 else 1) + failCount t := by
  unfold failCount
  rw [List.filter_cons]
  by_cases hd : processDoc d = DocOutcome.success
  · simp [hd]
  · simp [hd]
    omega

theorem foldl_processStep (docs : List Doc) (a b : Nat) :
    docs.foldl processStep (a, b) = (a + successCount docs, b + failCount docs) := by
  induction docs generalizing a b with
  | nil => simp [successCount, failCount]
  | cons d t ih =>
      rw [List.foldl_cons, processStep_eq, successCount_cons, failCount_cons]
      by_cases hd : processDoc d = DocOutcome.success
      · rw [if_pos hd, if_pos hd, if_pos hd, ih]
        simp only [Prod.mk.injEq]
        constructor <;> omega
      · rw [if_neg hd, if_neg hd, if_neg hd, ih]
        simp only [Prod.mk.injEq]
        constructor <;> omega

/-- C6 (confirmed): a document whose processing does not succeed — empty text,
empty extraction record, or a raised error (all caught per-document) — is
counted failed exactly once, and every document before and after it is still
processed and counted; the loop, a total function here, never propagates a
failure out of `process_all_documents`. -/
theorem c6_per_document_failure_isolated (pre post : List Doc) (d : Doc)
    (hfail : processDoc d ≠ DocOutcome.success) :
    process_all_documents (pre ++ d :: post) =
      (successCount pre + successCount post, failCount pre + 1 + failCount post) := by
  unfold process_all_documents
  rw [List.foldl_append, List.foldl_cons, foldl_processStep, processStep_eq, if_neg hfail,
    foldl_processStep]
  simp only [Prod.mk.injEq]
  constructor <;> omega

/-- Witness for C6: a batch of three documents whose middle document has an
empty extraction record (simulated extraction-service failure). -/
theorem c6_witness :
    processDoc ⟨"t", none, false⟩ ≠ DocOutcome.success ∧
    process_all_documents
        ([⟨"a", some ⟨none, [], [], ⟨[], [], []⟩, ⟨none⟩⟩, false⟩] ++
          ⟨"t", none, false⟩ ::
          [⟨"b", some ⟨none, [], [], ⟨[], [], []⟩, ⟨none⟩⟩, false⟩]) =
      (successCount [⟨"a", some ⟨none, [], [], ⟨[], [], []⟩, ⟨none⟩⟩, false⟩] +
        successCount [⟨"b", some ⟨none, [], [], ⟨[], [], []⟩, ⟨none⟩⟩, false⟩],
       failCount [⟨"a", some ⟨none, [], [], ⟨[], [], []⟩, ⟨none⟩⟩, false⟩] + 1 +
        failCount [⟨"b", some ⟨none, [], [], ⟨[], [], []⟩, ⟨none⟩⟩, false⟩]) :=
  ⟨by decide,
    c6_per_document_failure_isolated _ _ ⟨"t", none, false⟩ (by decide)⟩

theorem process_trace_length (docs : List Doc) :
    (process_trace docs).length = docs.length := by
  unfold process_trace
  rw [List.length_map, List.enum_length]

/-- C8, counterexample: in a two-document batch whose first document has empty
text, no inter-document delay runs after the first document (the empty-text
branch `continue`s past the sleep), even though it is not the last document —
refuting "the delay is executed after every non-final document whether it
succeeded or was marked failed". -/
theorem c8_counterexample_no_sleep_after_empty_text :
    process_trace [⟨"", none, false⟩,
        ⟨"t", some ⟨none, [], [], ⟨[], [], []⟩, ⟨none⟩⟩, false⟩] =
      [(DocOutcome.emptyText, false), (DocOutcome.success, false)] := by decide

/-- C8, amended: the inter-document delay runs after document i exactly when
document i did not fail at the read/empty-text stage and i is not the last
document; an empty-text document skips the delay via `continue`, while
empty-record and raised-error documents still sleep. -/
theorem c8_amended_sleep_rule (docs : List Doc) (i : Nat) (h : i < docs.length) :
    ((process_trace docs).get ⟨i, by rw [process_trace_length]; exact h⟩).2 =
      (decide (processDoc (docs.get ⟨i, h⟩) ≠ DocOutcome.emptyText) &&
       decide (i + 1 < docs.length)) := by
  unfold process_trace
  rw [List.get_eq_getElem, List.getElem_map, List.getElem_enum]
  unfold sleptAfter
  rw [List.get_eq_getElem]
  by_cases hoc : processDoc docs[i] = DocOutcome.emptyText
  · simp [hoc]
  · by_cases hlt : i + 1 < docs.length
    · have hne : ¬(i + 1 = docs.length) := by omega
      simp [hoc, hlt, hne]
    · have heq : i + 1 = docs.length := by omega
      simp [hoc, hlt, heq]

/-- Witness for the amended C8: after the first of two successful documents
the delay runs. -/
theorem c8_amended_witness :
    ((process_trace [⟨"t", some ⟨none, [], [], ⟨[], [], []⟩, ⟨none⟩⟩, false⟩,
        ⟨"u", some ⟨none, [], [], ⟨[], [], []⟩, ⟨none⟩⟩, false⟩]).get
      ⟨0, by rw [process_trace_length]; decide⟩).2 =
      (decide (processDoc ([⟨"t", some ⟨none, [], [], ⟨[], [], []⟩, ⟨none⟩⟩, false⟩,
          ⟨"u", some ⟨none, [], [], ⟨[], [], []⟩, ⟨none⟩⟩, false⟩].get
        ⟨0, by decide⟩) ≠ DocOutcome.emptyText) &&
       decide (0 + 1 < 2)) :=
  c8_amended_sleep_rule
    [⟨"t", some ⟨none, [], [], ⟨[], [], []⟩, ⟨none⟩⟩, false⟩,
     ⟨"u", some ⟨none, [], [], ⟨[], [], []⟩, ⟨none⟩⟩, false⟩] 0 (by decide)

/-- C10 (confirmed): a document succeeds exactly when its text is non-empty,
its extraction record is a non-empty dict, and the graph write does not raise
— in particular a non-empty record with no clients still counts as success;
and a succeeding document increments the success counter exactly once. -/
theorem c10_nonempty_record_counts_success :
    (∀ d : Doc, processDoc d = DocOutcome.success ↔
      d.text ≠ "" ∧ d.extract.isSome = true ∧ d.buildFails = false) ∧
    (∀ (t : String) (r : Record), t ≠ "" →
      processDoc ⟨t, some r, false⟩ = DocOutcome.success) ∧
    (∀ (pre post : List Doc) (d : Doc), processDoc d = DocOutcome.success →
      process_all_documents (pre ++ d :: post) =
        (successCount pre + 1 + successCount post, failCount pre + failCount post)) := by
  refine ⟨?_, ?_, ?_⟩
  · intro d
    unfold processDoc
    by_cases ht : d.text = ""
    · simp [ht]
    · cases hx : d.extract with
      | none => simp [ht, hx]
      | some r => by_cases hb : d.buildFails <;> simp [ht, hx, hb]
  · intro t r ht
    unfold processDoc
    simp [ht]
  · intro pre post d hd
    unfold process_all_documents
    rw [List.foldl_append, List.foldl_cons, foldl_processStep, processStep_eq, if_pos hd,
      foldl_processStep]
    simp only [Prod.mk.injEq]
    constructor <;> omega

/-- Witness for C10: a document with non-empty text and a record containing no
clients is a success. -/
theorem c10_witness :
    (processDoc ⟨"t", some ⟨none, [], [], ⟨[], [], []⟩, ⟨none⟩⟩, false⟩ = DocOutcome.success ↔
      (⟨"t", some ⟨none, [], [], ⟨[], [], []⟩, ⟨none⟩⟩, false⟩ : Doc).text ≠ "" ∧
      (⟨"t", some ⟨none, [], [], ⟨[], [], []⟩, ⟨none⟩⟩, false⟩ : Doc).extract.isSome = true ∧
      (⟨"t", some ⟨none, [], [], ⟨[], [], []⟩, ⟨none⟩⟩, false⟩ : Doc).buildFails = false) ∧
    processDoc ⟨"t", some ⟨none, [], [], ⟨[], [], []⟩, ⟨none⟩⟩, false⟩ = DocOutcome.success ∧
    process_all_documents ([] ++ ⟨"t", some ⟨none, [], [], ⟨[], [], []⟩, ⟨none⟩⟩, false⟩ :: []) =
      (successCount [] + 1 + successCount [], failCount [] + failCount []) :=
  ⟨c10_nonempty_record_counts_success.1 _,
   c10_nonempty_record_counts_success.2.1 "t" ⟨none, [], [], ⟨[], [], []⟩, ⟨none⟩⟩ (by decide),
   c10_nonempty_record_counts_success.2.2 [] [] _ (by decide)⟩

/-! ### C7 — required configuration -/

/-- C7, counterexample: with the inference-service API key present but the
graph-store password absent, `main` does not abort — it runs the batch and
processes the document (which is counted, here as a failure of its graph
write); so a missing password does not fail fast. -/
theorem c7_counterexample_missing_password_not_fail_fast :
    mainEntry ⟨some "key", none, none, none⟩ true
        [⟨"t", some ⟨none, [], [], ⟨[], [], []⟩, ⟨none⟩⟩, true⟩] =
      MainResult.ran (0, 1) ∧
    (⟨some "key", none, none, none⟩ : Config).neo4jPassword = none := by decide

/-- C7, amended: the program fails fast only on a missing (or empty)
inference-service API key, aborting before any document is processed; the
graph-store password is never consulted by the startup checks, so its absence
changes nothing about whether documents are processed. -/
theorem c7_amended_only_api_key_checked (cfg : Config) (dirExists : Bool) (docs : List Doc) :
    (truthyStr cfg.groqApiKey = false → mainEntry cfg dirExists docs = MainResult.abortedNoKey) ∧
    (∀ pw, mainEntry ⟨cfg.groqApiKey, cfg.neo4jUri, cfg.neo4jUser, pw⟩ dirExists docs =
      mainEntry cfg dirExists docs) := by
  constructor
  · intro h
    unfold mainEntry
    rw [h]
    rfl
  · intro pw
    rfl

/-- Witness for the amended C7: a configuration with no API key aborts. -/
theorem c7_amended_witness :
    mainEntry ⟨none, none, none, none⟩ true [] = MainResult.abortedNoKey :=
  (c7_amended_only_api_key_checked ⟨none, none, none, none⟩ true []).1 rfl

end BuildGraph
